import Mathlib

/-!
Verification development for the Grok-CLI conversation orchestration engine.

The Rust source is shallowly embedded: the file system is a map from path
strings to optional contents, machine integers (`usize`, `u8`, `u64`) are
`Nat` (no arithmetic here ever approaches overflow ranges), fallible
operations return a result component, and the streamed provider byte stream
is a list of characters split into arbitrary chunks.
-/

namespace GrokCLI

/-! ## File system model (src/transactions.rs)

A file system maps a path string to `some content` when the file exists and
to `none` when it does not.  `fs::read_to_string` is `fs p`, `fs::write` is
`fsWrite`, `fs::remove_file` is `fsRemove`, `Path::exists` is `(fs p).isSome`.
-/

abbrev FS := String → Option String

def fsWrite (fs : FS) (p c : String) : FS :=
  fun q => if q = p then some c else fs q

def fsRemove (fs : FS) (p : String) : FS :=
  fun q => if q = p then none else fs q

/-- `FileSnapshot` from src/transactions.rs.  The `modified` timestamp field
is omitted: it records wall-clock time, and `restore` deliberately never uses
it (the source notes "We don't restore timestamps").  The Rust field `exists`
is a Lean keyword-adjacent name, rendered `fexists`. -/
structure FileSnapshot where
  path : String
  content : Option String
  fexists : Bool
  deriving Repr, DecidableEq

/-- `FileSnapshot::snapshot`: capture the current state of a path. -/
def FileSnapshot.snapshot (fs : FS) (path : String) : FileSnapshot :=
  { path := path, content := fs path, fexists := (fs path).isSome }

/-- `FileSnapshot::restore`: if the file existed, rewrite its captured
content; otherwise remove the file if it now exists. -/
def FileSnapshot.restore (s : FileSnapshot) (fs : FS) : FS :=
  if s.fexists then
    match s.content with
    | some c => fsWrite fs s.path c
    | none => fs
  else
    if (fs s.path).isSome then fsRemove fs s.path else fs

/-- `Transaction` from src/transactions.rs.  The Rust `HashMap<String,
FileSnapshot>` is modelled as an association list; `snapshot_file` only ever
inserts an absent key, so keys stay distinct and iteration order is
irrelevant to the per-path rollback result. -/
structure Transaction where
  snapshots : List (String × FileSnapshot)
  modified_files : List String
  deriving Repr, DecidableEq

def Transaction.new : Transaction :=
  { snapshots := [], modified_files := [] }

/-- `Transaction::snapshot_file`: first-write-wins — a path already holding a
snapshot is left untouched. -/
def Transaction.snapshot_file (t : Transaction) (fs : FS) (path : String) : Transaction :=
  if (t.snapshots.lookup path).isSome then t
  else { t with snapshots := t.snapshots ++ [(path, FileSnapshot.snapshot fs path)] }

/-- `Transaction::mark_modified`. -/
def Transaction.mark_modified (t : Transaction) (path : String) : Transaction :=
  if path ∈ t.modified_files then t
  else { t with modified_files := t.modified_files ++ [path] }

/-- `Transaction::rollback`: restore every snapshot. -/
def Transaction.rollback (t : Transaction) (fs : FS) : FS :=
  t.snapshots.foldl (fun acc pr => pr.2.restore acc) fs

/-- `TransactionManager` (the global singleton's data). -/
structure TransactionManager where
  current_transaction : Option Transaction
  sandbox_cwd : Option String
  deriving Repr, DecidableEq

/-- The manager together with the ambient file system it manipulates. -/
structure MgrState where
  mgr : TransactionManager
  fs : FS

/-- Error kinds of `std::io::Error` as used by the transaction layer. -/
inductive IoError
  | permissionDenied (msg : String)
  | other (msg : String)
  deriving Repr, DecidableEq

/-- `TransactionManager::begin_transaction`: unconditionally installs a fresh
empty transaction; it never touches the file system. -/
def begin_transaction (st : MgrState) : MgrState :=
  { st with mgr := { st.mgr with current_transaction := some Transaction.new } }

/-- `TransactionManager::commit_transaction`: discard the snapshots. -/
def commit_transaction (st : MgrState) : MgrState :=
  { st with mgr := { st.mgr with current_transaction := none } }

/-- `TransactionManager::rollback_transaction`: restore all snapshots of the
current transaction (if any), then clear it. -/
def rollback_transaction (st : MgrState) : MgrState :=
  match st.mgr.current_transaction with
  | some t =>
      { mgr := { st.mgr with current_transaction := none }, fs := t.rollback st.fs }
  | none => { st with mgr := { st.mgr with current_transaction := none } }

/-- `std::path::Path::is_absolute`, Unix semantics: the path has a root. -/
def isAbsolutePath (p : String) : Bool :=
  "/".data.isPrefixOf p.data

/-- `TransactionManager::is_path_allowed`: in sandbox mode a path is allowed
when it starts with the sandbox directory string (Rust `str::starts_with`)
or is not absolute. -/
def is_path_allowed (m : TransactionManager) (path : String) : Bool :=
  match m.sandbox_cwd with
  | some cwd => cwd.data.isPrefixOf path.data || !(isAbsolutePath path)
  | none => true

/-- The sandbox violation message of `TransactionManager::prepare_file`. -/
def sandboxErrMsg (path : String) : String :=
  "Cannot modify files outside of sandbox: " ++ path

/-- `TransactionManager::prepare_file`: refuse disallowed paths with a
`PermissionDenied` error, otherwise snapshot the path in the active
transaction (no-op when no transaction is active). -/
def prepare_file (st : MgrState) (path : String) : MgrState × Except IoError Unit :=
  if !(is_path_allowed st.mgr path) then
    (st, Except.error (IoError.permissionDenied (sandboxErrMsg path)))
  else
    match st.mgr.current_transaction with
    | some t =>
        ({ st with
            mgr := { st.mgr with current_transaction := some (t.snapshot_file st.fs path) } },
         Except.ok ())
    | none => (st, Except.ok ())

/-- `TransactionManager::mark_file_modified`. -/
def mark_file_modified (st : MgrState) (path : String) : MgrState :=
  match st.mgr.current_transaction with
  | some t =>
      { st with mgr := { st.mgr with current_transaction := some (t.mark_modified path) } }
  | none => st

/-- `TransactionManager::execute_file_operation`.  The Rust mutation closure
performs I/O on the prepared path; it is modelled as a function from the
path's current content to either an error or the path's new content (`none`
deletes the file).  On closure failure the snapshot taken by `prepare_file`
is kept, exactly as in the source. -/
def execute_file_operation (st : MgrState) (path : String)
    (op : Option String → Except IoError (Option String)) :
    MgrState × Except IoError Unit :=
  match prepare_file st path with
  | (st1, Except.error e) => (st1, Except.error e)
  | (st1, Except.ok ()) =>
      match op (st1.fs path) with
      | Except.error e => (st1, Except.error e)
      | Except.ok newContent =>
          let st2 : MgrState :=
            { st1 with fs := fun q => if q = path then newContent else st1.fs q }
          (mark_file_modified st2 path, Except.ok ())

/-- One scripted file mutation: a target path together with the mutation
applied to that path's content. -/
structure FileOp where
  path : String
  op : Option String → Except IoError (Option String)

/-- Run a sequence of `execute_file_operation` calls, threading the manager
state; results are delivered to the tool layer and do not affect the
transaction machinery. -/
def runFileOps (st : MgrState) : List FileOp → MgrState
  | [] => st
  | f :: rest => runFileOps (execute_file_operation st f.path f.op).1 rest

/-! ## Messages and token accounting (src/api.rs, src/tools.rs, src/app.rs) -/

/-- `FunctionCall` from src/tools.rs. -/
structure FunctionCall where
  name : String
  arguments : String
  deriving Repr, DecidableEq

/-- `ToolCall` from src/tools.rs; the Rust field `r#type` is rendered
`rtype`. -/
structure ToolCall where
  id : String
  rtype : String
  function : FunctionCall
  deriving Repr, DecidableEq

/-- `Message` from src/api.rs. -/
structure Message where
  role : String
  content : Option String
  tool_calls : Option (List ToolCall)
  tool_call_id : Option String
  deriving Repr, DecidableEq

/-- `estimate_tokens` (src/app.rs): `text.len().div_ceil(4)`.  Rust
`str::len` is the UTF-8 byte length, and `div_ceil(4)` is `(len + 3) / 4`. -/
def estimate_tokens (text : String) : Nat :=
  (text.utf8ByteSize + 3) / 4

/-- `message_tokens` (src/app.rs): 4 tokens of role overhead plus estimates
for the content and each tool call's name and arguments. -/
def message_tokens (msg : Message) : Nat :=
  let tokens := 4
  let tokens :=
    match msg.content with
    | some content => tokens + estimate_tokens content
    | none => tokens
  match msg.tool_calls with
  | some tool_calls =>
      tool_calls.foldl
        (fun acc tc => acc + estimate_tokens tc.function.name + estimate_tokens tc.function.arguments)
        tokens
  | none => tokens

/-- `total_context_tokens` (src/app.rs). -/
def total_context_tokens (messages : List Message) : Nat :=
  (messages.map message_tokens).sum

/-- Following the claim's words for C6: the same shape of estimate but with
`chars` read as the number of characters (code points) of the text, i.e.
`ceil(chars/4)` per text chunk. -/
def estimate_tokens_claimed (text : String) : Nat :=
  (text.length + 3) / 4

/-- Following the claim's words for C6: per-message cost from character
counts. -/
def message_tokens_claimed (msg : Message) : Nat :=
  4 + (match msg.content with
       | some content => estimate_tokens_claimed content
       | none => 0) +
    ((msg.tool_calls.getD []).map
      (fun tc => estimate_tokens_claimed tc.function.name +
        estimate_tokens_claimed tc.function.arguments)).sum

/-- Following the claim's words for C6: the total as a plain sum. -/
def total_context_tokens_claimed (messages : List Message) : Nat :=
  (messages.map message_tokens_claimed).sum

/-- The amended per-message cost: identical to the claimed shape except that
each text chunk costs `ceil(bytes/4)` of its UTF-8 byte length. -/
def message_tokens_amended (msg : Message) : Nat :=
  4 + (match msg.content with
       | some content => estimate_tokens content
       | none => 0) +
    ((msg.tool_calls.getD []).map
      (fun tc => estimate_tokens tc.function.name +
        estimate_tokens tc.function.arguments)).sum

/-- The amended total. -/
def total_context_tokens_amended (messages : List Message) : Nat :=
  (messages.map message_tokens_amended).sum

/-! ## History compression (src/app.rs `compress_history_if_needed`,
shared line for line with `App::compress_context_if_needed` in
src/compression.rs apart from status reporting) -/

/-- `safe_truncate` (src/app.rs): truncate at a character boundary, adding an
ellipsis when anything was cut. -/
def safe_truncate (s : String) (max_chars : Nat) : String :=
  if s.length ≤ max_chars then s
  else String.mk (s.data.take max_chars) ++ "..."

/-- Rust `str::trim` on a character list (both ends). -/
def rustTrimChars (l : List Char) : List Char :=
  ((l.dropWhile Char.isWhitespace).reverse.dropWhile Char.isWhitespace).reverse

/-- Split a character list on `'\n'`, keeping every (possibly empty)
segment. -/
def splitNlChars : List Char → List Char → List (List Char)
  | [], acc => [acc]
  | c :: cs, acc =>
      if c = '\n' then acc :: splitNlChars cs []
      else splitNlChars cs (acc ++ [c])

/-- Rust `str::trim`.  Rust trims Unicode `White_Space`; the whitespace
appearing in this code base is ASCII, covered by `Char.isWhitespace`. -/
def rust_trim (s : String) : String :=
  String.mk (rustTrimChars s.data)

/-- Rust `str::starts_with` with a string pattern. -/
def rust_starts_with (s pat : String) : Bool :=
  pat.data.isPrefixOf s.data

/-- Rust `str::to_lowercase`.  Rust lowercases full Unicode; every consumer
here validates the result to ASCII immediately afterwards. -/
def rust_to_lowercase (s : String) : String :=
  String.mk (s.data.map Char.toLower)

/-- Rust `str::lines`: split on `'\n'`, trim one trailing `'\r'` per line,
and drop the final empty segment produced by a trailing newline. -/
def rust_lines (s : String) : List String :=
  let parts := (splitNlChars s.data []).map
    (fun l => if l.getLast? = some '\r' then String.mk l.dropLast else String.mk l)
  match parts.getLast? with
  | some "" => parts.dropLast
  | _ => parts

/-- Helper for `rust_contains`: does `pat` occur as a contiguous sublist? -/
def containsSublist (pat : List Char) : List Char → Bool
  | [] => pat.isEmpty
  | c :: cs => pat.isPrefixOf (c :: cs) || containsSublist pat cs

/-- Rust `str::contains` with a string pattern. -/
def rust_contains (s pat : String) : Bool :=
  containsSublist pat.data s.data

/-- `summarize_tool_result` (src/app.rs): a type-aware one-line summary of a
tool-result message. -/
def summarize_tool_result (content : String) (tool_name : Option String) : String :=
  let lines := rust_lines content
  let line_count := lines.length
  let char_count := content.utf8ByteSize
  if rust_starts_with content "Error:" || rust_starts_with content "error:" then
    let first_line := lines.head?.getD "error"
    "Error: " ++ safe_truncate first_line 80
  else
    match tool_name with
    | some "Read" | some "read_file" =>
        "Read " ++ toString line_count ++ " lines (" ++ toString char_count ++ " chars)"
    | some "Bash" | some "run_shell_command" =>
        if (rust_trim content).data.isEmpty then "Command completed (no output)"
        else if line_count = 1 then "Output: " ++ safe_truncate (rust_trim content) 100
        else "Output: " ++ toString line_count ++ " lines"
    | some "Glob" | some "glob" =>
        "Found " ++ toString (lines.filter (fun l => !(rust_trim l).data.isEmpty)).length ++ " files"
    | some "Grep" | some "grep" | some "search" =>
        "Found " ++ toString (lines.filter (fun l => !(rust_trim l).data.isEmpty)).length ++ " matches"
    | some "Edit" | some "edit_file" =>
        if content.data.contains '✓' then "Edit successful"
        else safe_truncate content 80
    | some "Write" | some "write_file" => "File written"
    | some "List" | some "list_dir" =>
        "Listed " ++ toString (lines.filter (fun l => !(rust_trim l).data.isEmpty)).length ++ " items"
    | _ =>
        if line_count ≤ 2 then safe_truncate content 150
        else toString line_count ++ " lines of output"

/-- The dynamic `keep_recent` computation of `compress_history_if_needed`:
clamp(available/avg, 6, 20). -/
def keep_recent_of (tokens len max_context : Nat) : Nat :=
  let base_keep := 6
  let max_keep := 20
  let available_for_recent := max_context * 3 / 10
  let avg_msg_tokens := tokens / max len 1
  if avg_msg_tokens > 0 then
    min (max (available_for_recent / avg_msg_tokens) base_keep) max_keep
  else base_keep

/-- The `tool_call_id -> tool_name` map built before summarizing; Rust
`HashMap::insert` overwrite semantics. -/
def build_tool_names (history : List Message) : String → Option String :=
  history.foldl
    (fun m msg =>
      match msg.tool_calls with
      | some tcs =>
          tcs.foldl (fun m tc => fun q => if q = tc.id then some tc.function.name else m q) m
      | none => m)
    (fun _ => none)

/-- The per-message summary line of the compression loop. -/
def summary_part (tool_names : String → Option String) (msg : Message) : Option String :=
  match msg.role with
  | "user" => msg.content.map (fun c => "User: " ++ safe_truncate c 120)
  | "assistant" =>
      let parts : List String :=
        match msg.tool_calls with
        | some tcs =>
            let tools := tcs.map (fun t => t.function.name)
            if !tools.isEmpty then ["Assistant used: " ++ String.intercalate ", " tools] else []
        | none => []
      let parts :=
        match msg.content with
        | some c => if !c.isEmpty then parts ++ ["Assistant: " ++ safe_truncate c 150] else parts
        | none => parts
      if parts.isEmpty then none else some (String.intercalate " | " parts)
  | "tool" =>
      msg.content.map (fun c =>
        let tool_name := msg.tool_call_id.bind tool_names
        "  → " ++ summarize_tool_result c tool_name)
  | _ => none

/-- The summary-building loop: accumulate parts, stopping once the running
byte count (Rust `String::len`) reaches 8000. -/
def build_summary (tool_names : String → Option String) :
    List Message → List String → Nat → List String × Nat
  | [], acc, chars => (acc, chars)
  | msg :: rest, acc, chars =>
      if chars ≥ 8000 then (acc, chars)
      else
        match summary_part tool_names msg with
        | some p => build_summary tool_names rest (acc ++ [p]) (chars + p.utf8ByteSize)
        | none => build_summary tool_names rest acc chars

/-- The trim loop: drop oldest summary lines while over the cap and more than
10 lines remain (`saturating_sub` is `Nat` subtraction). -/
def trim_summary (parts : List String) (chars : Nat) : List String × Nat :=
  if chars > 8000 ∧ parts.length > 10 then
    match parts with
    | [] => ([], chars)
    | p :: rest => trim_summary rest (chars - p.utf8ByteSize)
  else (parts, chars)
termination_by parts.length
decreasing_by simp_all [List.length_cons]

/-- The synthetic system message holding the summary. -/
def summary_message (count : Nat) (summary : String) : Message :=
  { role := "system",
    content := some ("[Previous conversation summary - " ++ toString count ++
      " messages compressed]\n" ++ summary),
    tool_calls := none,
    tool_call_id := none }

/-- `compress_history_if_needed` (src/app.rs): returns the new history and
whether compression was performed. -/
def compress_history_if_needed (history : List Message) (max_context : Nat) :
    List Message × Bool :=
  let tokens := total_context_tokens history
  let trigger_threshold := max_context * 7 / 10
  if tokens < trigger_threshold then (history, false)
  else
    let keep_recent := keep_recent_of tokens history.length max_context
    if history.length ≤ keep_recent + 1 then (history, false)
    else
      let tool_names := build_tool_names history
      let to_summarize := (history.drop 1).take (history.length - keep_recent - 1)
      if to_summarize.isEmpty then (history, false)
      else
        let built := build_summary tool_names to_summarize [] 0
        let trimmed := trim_summary built.1 built.2
        let system_msg := history.take 1
        let recent := history.drop (history.length - keep_recent)
        let summary := String.intercalate "\n" trimmed.1
        let summary_msg := summary_message to_summarize.length summary
        let new_history := system_msg ++ [summary_msg] ++ recent
        let new_tokens := total_context_tokens new_history
        if new_tokens > trigger_threshold ∧ new_history.length > 4 then
          (new_history.eraseIdx 1, true)
        else (new_history, true)

/-! ## Role directives (src/app.rs) -/

/-- `RoleDirective` from src/app.rs. -/
structure RoleDirective where
  role : String
  content : String
  deriving Repr, DecidableEq

/-- Split a character list at the first occurrence of `target`, returning the
characters before and after it. -/
def splitAtChar (target : Char) : List Char → Option (List Char × List Char)
  | [] => none
  | c :: cs =>
      if c = target then some ([], cs)
      else (splitAtChar target cs).map (fun pr => (c :: pr.1, pr.2))

/-- `parse_role_directive` (src/app.rs): an `@role:` directive at the start
of the (trimmed) text.  Rust `char::is_alphanumeric` and
`str::to_lowercase` are full Unicode; the role names accepted here are
ASCII-validated immediately after, so the ASCII `Char.isAlphanum` and
`String.toLower` coincide on every accepted input. -/
def parse_role_directive (content : String) : Option RoleDirective :=
  let trimmed := rust_trim content
  match trimmed.data with
  | '@' :: restChars =>
      match splitAtChar ':' restChars with
      | some (before, after) =>
          let role := rust_to_lowercase (rust_trim (String.mk before))
          let remaining := rust_trim (String.mk after)
          if role.data.all (fun c => c.isAlphanum || c = '_' || c = '-') && !role.data.isEmpty then
            some { role := role, content := remaining }
          else none
      | none => none
  | _ => none

/-- One line of `find_handoff_directive`'s scan. -/
def find_handoff_line (line : String) : Option RoleDirective :=
  let trimmed := rust_trim line
  match parse_role_directive trimmed with
  | some directive => some directive
  | none =>
      let lower := rust_to_lowercase trimmed
      if rust_contains lower "hand off to @" || rust_contains lower "handoff to @" then
        match splitAtChar '@' trimmed.data with
        | some (_, after_at) => parse_role_directive (String.mk ('@' :: after_at))
        | none => none
      else none

/-- `find_handoff_directive` (src/app.rs): the first line carrying either a
direct `@role:` directive or a "hand off to @role:" phrase. -/
def find_handoff_directive (content : String) : Option RoleDirective :=
  (rust_lines content).findSome? find_handoff_line

/-! ## Streaming response decoder (src/app.rs stream processing)

The provider byte stream is modelled as a list of characters delivered in
arbitrary chunks.  Each complete `data: <json>` line is decoded by
serde_json — an external collaborator — modelled as an arbitrary function
`parse` from the line body to an optional `Frame`; unparseable lines are
skipped exactly as in the source. -/

/-- One entry of a frame's `tool_calls` array: `index`, optional `id`, and
optional incremental `function.name` / `function.arguments` substrings. -/
structure ToolCallDelta where
  index : Nat
  id : Option String
  name : Option String
  arguments : Option String
  deriving Repr, DecidableEq

/-- The `choices[0].delta` (or `.message`) payload of a frame. -/
structure ChoiceDelta where
  reasoning : Option String
  content : Option String
  tool_calls : Option (List ToolCallDelta)
  deriving Repr, DecidableEq

/-- A decoded provider frame: optional usage report and optional first-choice
delta. -/
structure Frame where
  usage : Option (Nat × Nat)
  delta : Option ChoiceDelta
  deriving Repr, DecidableEq

/-- Events the stream-processing loop sends while decoding. -/
inductive DecEvent
  | usageUpdate (prompt_tokens completion_tokens : Nat)
  | thinkingToken (s : String)
  | token (s : String)
  deriving Repr, DecidableEq

/-- The accumulating decoder state: `full_content`, `tool_calls_buffer`, and
the events sent so far. -/
structure DecState where
  full_content : String
  tool_calls_buffer : List ToolCall
  events : List DecEvent
  deriving Repr, DecidableEq

def initDecState : DecState :=
  { full_content := "", tool_calls_buffer := [], events := [] }

/-- The placeholder used by `tool_calls_buffer.resize`. -/
def emptyToolCall : ToolCall :=
  { id := "", rtype := "function", function := { name := "", arguments := "" } }

/-- Apply one tool-call fragment: grow the buffer to cover the index, then
replace the id (when present) and append the name/arguments substrings. -/
def applyToolCallDelta (buf : List ToolCall) (d : ToolCallDelta) : List ToolCall :=
  let buf :=
    if buf.length ≤ d.index then buf ++ List.replicate (d.index + 1 - buf.length) emptyToolCall
    else buf
  let tc := buf.getD d.index emptyToolCall
  let tc := match d.id with
    | some i => { tc with id := i }
    | none => tc
  let tc := match d.name with
    | some n => { tc with function := { tc.function with name := tc.function.name ++ n } }
    | none => tc
  let tc := match d.arguments with
    | some a =>
        { tc with function := { tc.function with arguments := tc.function.arguments ++ a } }
    | none => tc
  buf.set d.index tc

/-- Apply one decoded frame to the decoder state: report usage, emit
reasoning and content tokens, accumulate content, and fold the tool-call
fragments into the buffer. -/
def applyFrame (st : DecState) (f : Frame) : DecState :=
  let st :=
    match f.usage with
    | some (p, c) => { st with events := st.events ++ [DecEvent.usageUpdate p c] }
    | none => st
  match f.delta with
  | none => st
  | some delta =>
      let st :=
        match delta.reasoning with
        | some thought => { st with events := st.events ++ [DecEvent.thinkingToken thought] }
        | none => st
      let st :=
        match delta.content with
        | some content =>
            { st with
                full_content := st.full_content ++ content,
                events := st.events ++ [DecEvent.token content] }
        | none => st
      match delta.tool_calls with
      | some tcs =>
          { st with tool_calls_buffer := tcs.foldl applyToolCallDelta st.tool_calls_buffer }
      | none => st

/-- The `data: ` prefix of an SSE line. -/
def dataPrefix : List Char := "data: ".data

/-- The `[DONE]` terminator body. -/
def doneChars : List Char := "[DONE]".data

/-- Strip `pre` from the front of `l`, if present. -/
def dropPrefixChars (pre l : List Char) : Option (List Char) :=
  if pre.isPrefixOf l then some (l.drop pre.length) else none

/-- Process one completed SSE line.  Returns the updated state and whether
the line was the `[DONE]` terminator (which clears the buffer and breaks out
of the current chunk's line loop). -/
def processLine (parse : List Char → Option Frame) (st : DecState) (line : List Char) :
    DecState × Bool :=
  let line := rustTrimChars line
  if line.isEmpty then (st, false)
  else
    match dropPrefixChars dataPrefix line with
    | none => (st, false)
    | some json_str =>
        if json_str = doneChars then (st, true)
        else
          match parse json_str with
          | some frame => (applyFrame st frame, false)
          | none => (st, false)

/-- Result of draining the completed lines of a buffer. -/
structure DrainResult where
  rest : List Char
  state : DecState
  done : Bool
  deriving Repr

/-- Scan the buffer character by character; every `'\n'` completes the line
accumulated in `acc` and feeds it to `processLine`.  On `[DONE]` the buffer
is cleared and the rest of this chunk's buffered data is discarded (the
source's `sse_buffer.clear(); break`). -/
def drainAux (parse : List Char → Option Frame) :
    List Char → List Char → DecState → DrainResult
  | [], acc, st => { rest := acc, state := st, done := false }
  | c :: cs, acc, st =>
      if c = '\n' then
        match processLine parse st acc with
        | (st', true) => { rest := [], state := st', done := true }
        | (st', false) => drainAux parse cs [] st'
      else drainAux parse cs (acc ++ [c]) st

/-- Drain every completed line (terminated by `'\n'`) from the buffer. -/
def drainLines (parse : List Char → Option Frame) (buf : List Char) (st : DecState) :
    DrainResult :=
  drainAux parse buf [] st

/-- Process one chunk: append it to the held-over buffer and drain completed
lines. -/
def processChunk (parse : List Char → Option Frame) (dec : DecState × List Char)
    (chunk : List Char) : DecState × List Char :=
  let r := drainLines parse (dec.2 ++ chunk) dec.1
  (r.state, r.rest)

/-- Process a whole stream of chunks from the initial decoder state. -/
def processChunks (parse : List Char → Option Frame) (dec : DecState × List Char)
    (chunks : List (List Char)) : DecState × List Char :=
  chunks.foldl (processChunk parse) dec

/-- The U+FFFD replacement character that `String::from_utf8_lossy` emits
for an invalid or severed UTF-8 sequence. -/
def replacementChar : Char := '�'

/-- `String::from_utf8_lossy` (Rust std): decode a byte sequence as UTF-8,
replacing each maximal invalid subpart — including a multi-byte character
severed by the end of the buffer — with U+FFFD.  Continuation-byte ranges
follow the UTF-8 validation table (0xE0/0xED and 0xF0/0xF4 restrict the
second byte). -/
def utf8Lossy : List Nat → List Char
  | [] => []
  | b :: rest =>
    if b < 0x80 then Char.ofNat b :: utf8Lossy rest
    else if 0xC2 ≤ b ∧ b ≤ 0xDF then
      match rest with
      | [] => [replacementChar]
      | b2 :: rest2 =>
        if 0x80 ≤ b2 ∧ b2 ≤ 0xBF then
          Char.ofNat ((b - 0xC0) * 64 + (b2 - 0x80)) :: utf8Lossy rest2
        else replacementChar :: utf8Lossy (b2 :: rest2)
    else if 0xE0 ≤ b ∧ b ≤ 0xEF then
      match rest with
      | [] => [replacementChar]
      | b2 :: rest2 =>
        if (if b = 0xE0 then 0xA0 ≤ b2 ∧ b2 ≤ 0xBF
            else if b = 0xED then 0x80 ≤ b2 ∧ b2 ≤ 0x9F
            else 0x80 ≤ b2 ∧ b2 ≤ 0xBF) then
          match rest2 with
          | [] => [replacementChar]
          | b3 :: rest3 =>
            if 0x80 ≤ b3 ∧ b3 ≤ 0xBF then
              Char.ofNat ((b - 0xE0) * 4096 + (b2 - 0x80) * 64 + (b3 - 0x80)) ::
                utf8Lossy rest3
            else replacementChar :: utf8Lossy (b3 :: rest3)
        else replacementChar :: utf8Lossy (b2 :: rest2)
    else if 0xF0 ≤ b ∧ b ≤ 0xF4 then
      match rest with
      | [] => [replacementChar]
      | b2 :: rest2 =>
        if (if b = 0xF0 then 0x90 ≤ b2 ∧ b2 ≤ 0xBF
            else if b = 0xF4 then 0x80 ≤ b2 ∧ b2 ≤ 0x8F
            else 0x80 ≤ b2 ∧ b2 ≤ 0xBF) then
          match rest2 with
          | [] => [replacementChar]
          | b3 :: rest3 =>
            if 0x80 ≤ b3 ∧ b3 ≤ 0xBF then
              match rest3 with
              | [] => [replacementChar]
              | b4 :: rest4 =>
                if 0x80 ≤ b4 ∧ b4 ≤ 0xBF then
                  Char.ofNat ((b - 0xF0) * 262144 + (b2 - 0x80) * 4096 + (b3 - 0x80) * 64
                    + (b4 - 0x80)) :: utf8Lossy rest4
                else replacementChar :: utf8Lossy (b4 :: rest4)
            else replacementChar :: utf8Lossy (b3 :: rest3)
        else replacementChar :: utf8Lossy (b2 :: rest2)
    else replacementChar :: utf8Lossy rest

/-- UTF-8 encoding of one character (Rust `char::encode_utf8`). -/
def utf8EncodeChar (c : Char) : List Nat :=
  let n := c.toNat
  if n < 0x80 then [n]
  else if n < 0x800 then [0xC0 + n / 64, 0x80 + n % 64]
  else if n < 0x10000 then [0xE0 + n / 4096, 0x80 + n / 64 % 64, 0x80 + n % 64]
  else [0xF0 + n / 262144, 0x80 + n / 4096 % 64, 0x80 + n / 64 % 64, 0x80 + n % 64]

/-- UTF-8 encoding of a character stream: the raw bytes the provider sends. -/
def utf8Bytes (l : List Char) : List Nat := (l.map utf8EncodeChar).flatten

/-- Bytewise chunk ingestion exactly as in the source's stream loop
(src/app.rs): each raw byte chunk is decoded on its own with
`String::from_utf8_lossy` and the result appended to the SSE buffer. -/
def processChunkBytes (parse : List Char → Option Frame) (dec : DecState × List Char)
    (chunk : List Nat) : DecState × List Char :=
  processChunk parse dec (utf8Lossy chunk)

/-- Process a whole stream of raw byte chunks from the initial decoder
state. -/
def processChunksBytes (parse : List Char → Option Frame) (dec : DecState × List Char)
    (chunks : List (List Nat)) : DecState × List Char :=
  chunks.foldl (processChunkBytes parse) dec

/-- Encode lines as the provider sends them: each body wrapped as
`data: <body>\n`. -/
def encodeLines (ls : List (List Char)) : List Char :=
  (ls.map (fun l => dataPrefix ++ l ++ ['\n'])).flatten

/-- A frame carrying exactly one tool-call fragment. -/
def fragmentFrame (d : ToolCallDelta) : Frame :=
  { usage := none, delta := some { reasoning := none, content := none, tool_calls := some [d] } }

/-- Concatenation, in arrival order, of the name substrings of a fragment
sequence. -/
def concatNames : List ToolCallDelta → String
  | [] => ""
  | d :: ds => d.name.getD "" ++ concatNames ds

/-- Concatenation, in arrival order, of the arguments substrings of a
fragment sequence. -/
def concatArguments : List ToolCallDelta → String
  | [] => ""
  | d :: ds => d.arguments.getD "" ++ concatArguments ds

/-! ## Conversation orchestration loop (src/app.rs `process_conversation`)

`process_conversation` is modelled as a function over a script of streamed
request outcomes: each `.request` action consumes the next script entry,
which is either a decoded assistant turn (accumulated content plus
materialized tool calls — the decoder layer above) or a transport error.
The externally-owned pieces — serde_json argument lookups and the tool
executor of src/tools.rs — are parameters, and every claim below is proved
for all of them.  The effects of the loop (channel sends, sleeps, requests,
transaction-manager calls, tool executions) are recorded as an ordered
action trace. -/

/-- `ModelRole` from src/config.rs. -/
structure ModelRole where
  model : String
  prompt : Option String
  deriving Repr, DecidableEq

/-- `ActiveRole` from src/app.rs. -/
structure ActiveRole where
  name : String
  model : String
  system_prompt : Option String
  deriving Repr, DecidableEq

/-- `RateLimitConfig` from src/settings.rs. -/
structure RateLimitConfig where
  max_context : Nat
  tpm : Nat
  rpm : Nat
  deriving Repr, DecidableEq

/-- The `AppEvent`s sent by the loop (src/app.rs).  `TodoUpdate` carries the
raw arguments string: the serde_json decoding of the todo payload is
external.  Token/thinking/usage events belong to the decoder layer. -/
inductive AppEvent
  | NewMessage (m : Message)
  | StatusUpdate (s : String)
  | TodoUpdate (raw_args : String)
  | Error (s : String)
  | Finished
  | PlanningRequest (question : String) (options : List String) (id : String)
      (cmd : Option (ToolCall × String))
  | ConfirmationRequest (plan : String) (id : String)
  | BashApprovalRequest (tc : ToolCall) (command : String)
  | WebSearchApprovalRequest (tc : ToolCall) (query : String)
  | RoleSwitch (from_role to_role : String)
  | RateLimitPause (seconds : Nat)
  | RateLimitResume
  deriving Repr, DecidableEq

/-- Observable actions of one worker run, in order. -/
inductive Action
  | send (e : AppEvent)
  | sleep (seconds : Nat)
  | request (model : String) (messages : List Message)
  | beginTxn
  | commitTxn
  | rollbackTxn
  | execTool (name arguments : String)
  deriving Repr, DecidableEq

/-- One scripted outcome of a streamed completion request. -/
inductive ApiResult
  | ok (content : String) (tool_calls : List ToolCall)
  | fail (err_msg : String)
  deriving Repr, DecidableEq

/-- serde_json lookups into tool-call argument strings (external collaborator
behaviour, universally quantified in the theorems).  Defaults mirror the
source's `unwrap_or` choices. -/
structure JsonOracle where
  question : String → String
  options : String → List String
  plan : String → String
  command : String → String
  query : String → String

/-- The fixed parameters of one `process_conversation` invocation; the rate
counters are snapshots passed in by the caller and, as in the source, are
not updated inside the loop. -/
structure Env where
  json : JsonOracle
  execute_tool : String → String → String
  base_model : String
  roles : String → Option ModelRole
  allowed_commands : List String
  max_context : Nat
  converse_mode : Bool
  rate_limit_config : Option RateLimitConfig
  rate_limiter_enabled : Bool
  tokens_used_this_minute : Nat
  requests_this_minute : Nat

/-- The result of a worker run. `ran_out` marks the model artifact of the
script ending while the loop still wanted another response. -/
structure RunResult where
  trace : List Action
  history : List Message
  ran_out : Bool
  deriving Repr

/-- `MAX_EMPTY_RETRIES` from src/app.rs. -/
def MAX_EMPTY_RETRIES : Nat := 2

/-- The nudge message appended before an empty-response retry. -/
def nudgeMessage : Message :=
  { role := "user", content := some "Please continue with your response.",
    tool_calls := none, tool_call_id := none }

/-- The user-visible warning message sent when empty-response retries are
exhausted. -/
def emptyWarningMessage : Message :=
  { role := "assistant",
    content := some "⚠️ The model returned an empty response. This may be due to safety filters or API issues. Try rephrasing your request.",
    tool_calls := none, tool_call_id := none }

/-- Error classification of the API error branch (substring matching as in
the source). -/
def classify_api_error (error_str : String) : String :=
  if rust_contains error_str "SAFETY_CHECK" || rust_contains error_str "violates usage guidelines" then
    "⚠️ Request blocked by safety filters. Try rephrasing your message."
  else if rust_contains error_str "rate_limit" || rust_contains error_str "429" then
    "⚠️ Rate limit exceeded. Please wait a moment before trying again."
  else if rust_contains error_str "401" || rust_contains error_str "permission" then
    "⚠️ API authentication error. Check your API key."
  else "API Error: " ++ error_str

/-- The status text sent with a rate-limit pause.  The source renders the two
percentages with `{:.0}` float formatting; the claims never inspect this
text, so the numbers are rendered from the same integer data. -/
def rate_pause_status (tok req : Nat) (c : RateLimitConfig) : String :=
  "Rate limit approaching - pausing 60s (" ++ toString (tok * 100 / max c.tpm 1) ++
    "% TPM, " ++ toString (req * 100 / max c.rpm 1) ++ "% RPM)"

/-- The status events emitted on entry for an active role. -/
def role_entry_trace (active_role : Option ActiveRole) : List Action :=
  match active_role with
  | some r => [Action.send (AppEvent.StatusUpdate ("@" ++ r.name ++ " thinking..."))]
  | none => []

/-- Role system-prompt injection on entry: insert the role context directly
after the first (system) message, or push it when the history is that
short. -/
def inject_role_prompt (active_role : Option ActiveRole) (history : List Message) :
    List Message :=
  match active_role with
  | some r =>
      match r.system_prompt with
      | some prompt =>
          let role_context : Message :=
            { role := "system", content := some ("[Role: @" ++ r.name ++ "]\n" ++ prompt),
              tool_calls := none, tool_call_id := none }
          if 1 < history.length then history.take 1 ++ [role_context] ++ history.drop 1
          else history ++ [role_context]
      | none => history
  | none => history

/-- Outcome of iterating one batch of tool calls. -/
inductive BatchOut
  | suspended (trace : List Action) (history : List Message)
  | completed (trace : List Action) (history : List Message)

/-- The tool-call dispatch loop of a streamed turn, in source order:
planning/meta calls and unapproved Bash/WebSearch suspend the turn
(`return`); TodoWrite and ordinary tools append a tool-role message and
continue. -/
def run_batch (env : Env) : List ToolCall → List Message → List Action → BatchOut
  | [], history, trace => BatchOut.completed trace history
  | tc :: rest, history, trace =>
      if tc.function.name = "ask_multiple_choice" || tc.function.name = "AskUser" then
        BatchOut.suspended
          (trace ++ [Action.send (AppEvent.PlanningRequest (env.json.question tc.function.arguments)
            (env.json.options tc.function.arguments) tc.id none)])
          history
      else if tc.function.name = "confirm_plan" || tc.function.name = "ConfirmPlan" then
        BatchOut.suspended
          (trace ++ [Action.send (AppEvent.ConfirmationRequest (env.json.plan tc.function.arguments) tc.id)])
          history
      else if (tc.function.name = "Bash" || tc.function.name = "run_shell_command") &&
          (env.allowed_commands.isEmpty ||
            !env.allowed_commands.contains (env.json.command tc.function.arguments)) then
        BatchOut.suspended
          (trace ++ [Action.send (AppEvent.BashApprovalRequest tc (env.json.command tc.function.arguments))])
          history
      else if tc.function.name = "WebSearch" || tc.function.name = "web_search" then
        BatchOut.suspended
          (trace ++ [Action.send (AppEvent.WebSearchApprovalRequest tc (env.json.query tc.function.arguments))])
          history
      else if tc.function.name = "TodoWrite" then
        let tool_msg : Message :=
          { role := "tool", content := some "Todo list updated.", tool_calls := none,
            tool_call_id := some tc.id }
        run_batch env rest (history ++ [tool_msg])
          (trace ++ [Action.send (AppEvent.TodoUpdate tc.function.arguments),
            Action.send (AppEvent.NewMessage tool_msg)])
      else
        let result := env.execute_tool tc.function.name tc.function.arguments
        let tool_msg : Message :=
          { role := "tool", content := some result, tool_calls := none,
            tool_call_id := some tc.id }
        run_batch env rest (history ++ [tool_msg])
          (trace ++ [Action.send (AppEvent.StatusUpdate ("Running tool: " ++ tc.function.name ++ "...")),
            Action.execTool tc.function.name tc.function.arguments,
            Action.send (AppEvent.NewMessage tool_msg)])

/-- The actions of the mid-loop rate-limiter check: pause event, status,
the 60-second sleep, resume event, status — or nothing when the limiter is
off, unconfigured, or under 80% of both limits. -/
def rate_limit_trace (env : Env) : List Action :=
  if env.rate_limiter_enabled then
    match env.rate_limit_config with
    | some c =>
        if env.tokens_used_this_minute ≥ c.tpm * 80 / 100 ∨
            env.requests_this_minute ≥ c.rpm * 80 / 100 then
          [Action.send (AppEvent.RateLimitPause 60),
            Action.send (AppEvent.StatusUpdate
              (rate_pause_status env.tokens_used_this_minute env.requests_this_minute c)),
            Action.sleep 60,
            Action.send AppEvent.RateLimitResume,
            Action.send (AppEvent.StatusUpdate "Rate limit cleared - resuming...")]
        else []
    | none => []
  else []

/-- The actions of one loop iteration up to and including the streamed
request: optional compression status, thinking status, the rate-limiter
block, then the request with the active role's model (or the client's base
model) over the (possibly compressed) history. -/
def iter_prefix (env : Env) (compressed2 : Bool) (history : List Message)
    (active_role : Option ActiveRole) : List Action :=
  (if compressed2 then [Action.send (AppEvent.StatusUpdate "Context compressed...")] else []) ++
    [Action.send (AppEvent.StatusUpdate "Thinking...")] ++
    rate_limit_trace env ++
    [Action.request
      (match active_role with
       | some r => r.model
       | none => env.base_model)
      history]

/-- The main turn loop.  Each iteration: mid-loop compression, status, the
rate-limiter mid-loop check, then a streamed request consuming the script
head.  A role handoff re-enters the conversation (the source recursion)
with the remaining script. -/
def conv_loop (env : Env) : List ApiResult → List Message → Option ActiveRole → Nat →
    List Action → RunResult
  | script, history, active_role, empty_retries, trace =>
      let compressed := compress_history_if_needed history env.max_context
      let history := compressed.1
      let trace := trace ++ iter_prefix env compressed.2 history active_role
      match script with
      | [] => { trace := trace, history := history, ran_out := true }
      | ApiResult.fail e :: _rest =>
          let user_message := classify_api_error e
          { trace := trace ++ [Action.rollbackTxn,
              Action.send (AppEvent.Error user_message),
              Action.send (AppEvent.NewMessage
                { role := "assistant", content := some user_message,
                  tool_calls := none, tool_call_id := none }),
              Action.send AppEvent.Finished, Action.commitTxn],
            history := history, ran_out := false }
      | ApiResult.ok content tool_calls :: rest =>
          let assistant_msg : Message :=
            { role := "assistant",
              content := if content.isEmpty then none else some content,
              tool_calls := if tool_calls.isEmpty then none else some tool_calls,
              tool_call_id := none }
          if assistant_msg.content.isSome || assistant_msg.tool_calls.isSome then
            let trace := trace ++ [Action.send (AppEvent.NewMessage assistant_msg)]
            let history := history ++ [assistant_msg]
            if !tool_calls.isEmpty then
              match run_batch env tool_calls history trace with
              | BatchOut.suspended trace' history' =>
                  { trace := trace', history := history', ran_out := false }
              | BatchOut.completed trace' history' =>
                  conv_loop env rest history' active_role 0 trace'
            else
              match find_handoff_directive content with
              | some handoff =>
                  match env.roles handoff.role with
                  | some role_config =>
                      let from_role :=
                        match active_role with
                        | some r => r.name
                        | none => "default"
                      let new_role : ActiveRole :=
                        { name := handoff.role, model := role_config.model,
                          system_prompt := role_config.prompt }
                      let handoff_msg : Message :=
                        { role := "user",
                          content := some ("Continue with the following task:\n" ++ handoff.content),
                          tool_calls := none, tool_call_id := none }
                      let trace := trace ++ [Action.send (AppEvent.RoleSwitch from_role handoff.role),
                        Action.send (AppEvent.NewMessage handoff_msg)]
                      let history := history ++ [handoff_msg]
                      conv_loop env rest (inject_role_prompt (some new_role) history)
                        (some new_role) 0
                        (trace ++ role_entry_trace (some new_role) ++ [Action.beginTxn])
                  | none =>
                      { trace := trace ++ [Action.send AppEvent.Finished, Action.commitTxn],
                        history := history, ran_out := false }
              | none =>
                  { trace := trace ++ [Action.send AppEvent.Finished, Action.commitTxn],
                    history := history, ran_out := false }
          else
            let empty_retries := empty_retries + 1
            if empty_retries ≥ MAX_EMPTY_RETRIES then
              { trace := trace ++ [Action.send (AppEvent.StatusUpdate "Model returned empty response"),
                  Action.send (AppEvent.NewMessage emptyWarningMessage),
                  Action.rollbackTxn,
                  Action.send AppEvent.Finished, Action.commitTxn],
                history := history, ran_out := false }
            else
              conv_loop env rest (history ++ [nudgeMessage]) active_role empty_retries

                (trace ++ [Action.send (AppEvent.StatusUpdate
                  ("Retrying (" ++ toString empty_retries ++ "/" ++ toString MAX_EMPTY_RETRIES ++ ")..."))])

/-- `process_conversation` (src/app.rs): entry prologue — active-role status,
role system-prompt injection, transaction begin — followed by the turn
loop.  A role handoff inside `conv_loop` re-enters exactly this
composition. -/
def process_conversation (env : Env) (script : List ApiResult) (history : List Message)
    (active_role : Option ActiveRole) : RunResult :=
  conv_loop env script (inject_role_prompt active_role history) active_role 0
    (role_entry_trace active_role ++ [Action.beginTxn])

/-! ## Rate-limit event handling on the consumer side (src/main.rs) -/

/-- The consumer-side rate-limit state mutated by the main event loop; the
wall-clock `rate_limit_resume_at` and `Instant` values are represented by
their presence. -/
structure ConsumerRate where
  rate_limit_paused : Bool
  rate_limit_resume_at_set : Bool
  rate_limit_window_started : Bool
  tokens_used_this_minute : Nat
  requests_this_minute : Nat
  deriving Repr, DecidableEq

/-- The `AppEvent::RateLimitPause`/`Resume` arms of the main.rs event loop:
resume clears the pause and resets the rolling-window counters to zero. -/
def handle_rate_event (st : ConsumerRate) (e : AppEvent) : ConsumerRate :=
  match e with
  | AppEvent.RateLimitPause _seconds =>
      { st with rate_limit_paused := true, rate_limit_resume_at_set := true }
  | AppEvent.RateLimitResume =>
      { rate_limit_paused := false, rate_limit_resume_at_set := false,
        rate_limit_window_started := true,
        tokens_used_this_minute := 0, requests_this_minute := 0 }
  | _ => st

/-! ## Auxiliary predicates and concrete fixtures -/

/-- Invariant of a transaction-managed run started over `fs0`: the current
transaction's snapshots each record the pre-transaction state of their own
path, snapshot keys are distinct, and unsnapshotted paths still hold their
pre-transaction content. -/
def TxnInv (fs0 : FS) (st : MgrState) : Prop :=
  ∃ t, st.mgr.current_transaction = some t ∧
    (∀ q s, (q, s) ∈ t.snapshots →
      s.path = q ∧ s.content = fs0 q ∧ s.fexists = (fs0 q).isSome) ∧
    (t.snapshots.map Prod.fst).Nodup ∧
    (∀ q, t.snapshots.lookup q = none → st.fs q = fs0 q)

/-- A line body is clean for the stream-reassembly statement when it holds no
newline, survives the SSE line trim unchanged, and is not the terminator. -/
def cleanLine (l : List Char) : Prop :=
  '\n' ∉ l ∧ rustTrimChars (dataPrefix ++ l) = dataPrefix ++ l ∧ l ≠ doneChars

/-- The per-line step of the drain loop once the SSE framing is peeled off:
parseable bodies are applied, unparseable ones skipped. -/
def frameStep (parse : List Char → Option Frame) (st : DecState) (l : List Char) : DecState :=
  match parse l with
  | some frame => applyFrame st frame
  | none => st

instance cleanLineDecidable (l : List Char) : Decidable (cleanLine l) :=
  inferInstanceAs (Decidable
    ('\n' ∉ l ∧ rustTrimChars (dataPrefix ++ l) = dataPrefix ++ l ∧ l ≠ doneChars))

/-- Concrete fragment: first half of a tool call at index 0. -/
def dA : ToolCallDelta :=
  { index := 0, id := some "id1", name := some "get_", arguments := some "arg_" }

/-- Concrete fragment: second half of the same tool call. -/
def dB : ToolCallDelta :=
  { index := 0, id := none, name := some "file", arguments := some "ument" }

/-- The single undivided fragment carrying both concatenations. -/
def dC : ToolCallDelta :=
  { index := 0, id := none, name := some "get_file", arguments := some "arg_ument" }

/-- Line bodies of the fragmented stream. -/
def lsC3 : List (List Char) := ["A".data, "B".data]

/-- A concrete serde_json stand-in decoding the three test line bodies. -/
def parseC3 : List Char → Option Frame := fun l =>
  if l = "A".data then some (fragmentFrame dA)
  else if l = "B".data then some (fragmentFrame dB)
  else if l = "C".data then some (fragmentFrame dC)
  else none

/-- A chunk split that severs the stream mid-line. -/
def chunksC3 : List (List Char) :=
  [(encodeLines lsC3).take 5, (encodeLines lsC3).drop 5]

/-- Line body whose arguments substring holds a two-byte character. -/
def bodyX : List Char := ['E', 'é']

/-- The fragment the clean body decodes to. -/
def dX : ToolCallDelta :=
  { index := 0, id := none, name := some "f", arguments := some "é" }

/-- The fragment serde_json yields for the corrupted body, where the severed
two-byte character has become two U+FFFD replacement characters (a JSON
string may hold U+FFFD, so the frame still parses). -/
def dXbad : ToolCallDelta :=
  { index := 0, id := none, name := some "f", arguments := some "��" }

/-- Stand-in for serde_json on this scenario: decodes both the clean body
and its lossy-corrupted form. -/
def parseX : List Char → Option Frame := fun l =>
  if l = bodyX then some (fragmentFrame dX)
  else if l = ['E', '�', '�'] then some (fragmentFrame dXbad)
  else none

/-- A split of the very same raw byte stream whose boundary falls between
the two bytes of the `é` inside the line body. -/
def chunksBytesX : List (List Nat) :=
  [(utf8Bytes (encodeLines [bodyX])).take 8, (utf8Bytes (encodeLines [bodyX])).drop 8]

/-- Concrete argument-lookup oracle for witnesses (defaults as in the
source's `unwrap_or` calls). -/
def jsonOracle0 : JsonOracle :=
  { question := fun _ => "Select options", options := fun _ => [],
    plan := fun _ => "", command := fun _ => "", query := fun _ => "" }

/-- Baseline concrete environment for witnesses: rate limiter off, huge
context, no roles. -/
def baseEnv : Env :=
  { json := jsonOracle0, execute_tool := fun _ _ => "",
    base_model := "grok-code-fast-1", roles := fun _ => none,
    allowed_commands := [], max_context := 1000000, converse_mode := false,
    rate_limit_config := none, rate_limiter_enabled := false,
    tokens_used_this_minute := 0, requests_this_minute := 0 }

/-- A tiny concrete transcript. -/
def H0 : List Message :=
  [{ role := "system", content := some "sys", tool_calls := none, tool_call_id := none },
   { role := "user", content := some "hi", tool_calls := none, tool_call_id := none }]

/-- Concrete sandboxed manager state for the sandbox witness. -/
def sandboxSt : MgrState :=
  { mgr :=
      { current_transaction := some Transaction.new,
        sandbox_cwd := some "/home/user/proj" },
    fs := fun _ => none }

/-- The `keep_recent` value `compress_history_if_needed` computes for a
given transcript. -/
def compress_keep_recent (history : List Message) (max_context : Nat) : Nat :=
  keep_recent_of (total_context_tokens history) history.length max_context

/-- The slice of messages `compress_history_if_needed` moves into the
summary: everything strictly between the system message and the kept
tail. -/
def compress_to_summarize (history : List Message) (max_context : Nat) : List Message :=
  (history.drop 1).take (history.length - compress_keep_recent history max_context - 1)

/-- The synthetic summary message `compress_history_if_needed` builds. -/
def compress_summary_msg (history : List Message) (max_context : Nat) : Message :=
  let ts := compress_to_summarize history max_context
  let built := build_summary (build_tool_names history) ts [] 0
  summary_message ts.length (String.intercalate "\n" (trim_summary built.1 built.2).1)

/-- The assistant message constructed from non-empty streamed content with no
tool calls. -/
def assistant_text_message (content : String) : Message :=
  { role := "assistant", content := some content, tool_calls := none, tool_call_id := none }

/-- The synthetic user message appended on a role handoff. -/
def handoff_user_message (d : RoleDirective) : Message :=
  { role := "user", content := some ("Continue with the following task:\n" ++ d.content),
    tool_calls := none, tool_call_id := none }

/-- The role-context system message injected after the primary system
message. -/
def role_context_message (name prompt : String) : Message :=
  { role := "system", content := some ("[Role: @" ++ name ++ "]\n" ++ prompt),
    tool_calls := none, tool_call_id := none }

/-- The `ActiveRole` created for a detected handoff. -/
def handoff_role (d : RoleDirective) (rc : ModelRole) : ActiveRole :=
  { name := d.role, model := rc.model, system_prompt := rc.prompt }

/-- Concrete message and transcript on which compression fires (8 messages,
max context 10). -/
def msgC4 : Message :=
  { role := "user", content := some "x", tool_calls := none, tool_call_id := none }

def histC4 : List Message := List.replicate 8 msgC4

/-- Concrete transaction scenario for the rollback witness: `"a"` exists
before the transaction, is rewritten and then deleted; `"b"` is created. -/
def mC1 : TransactionManager := { current_transaction := none, sandbox_cwd := none }

def fsC1 : FS := fun q => if q = "a" then some "orig" else none

def opsC1 : List FileOp :=
  [{ path := "a", op := fun _ => Except.ok (some "new") },
   { path := "b", op := fun _ => Except.ok (some "created") },
   { path := "a", op := fun _ => Except.ok none }]

def tC1 : Transaction :=
  { snapshots := [("a", { path := "a", content := some "orig", fexists := true }),
      ("b", { path := "b", content := none, fexists := false })],
    modified_files := ["a", "b"] }

def snapC1 : FileSnapshot := { path := "a", content := some "orig", fexists := true }

/-- Concrete handoff-discard scenario: a transaction holding a snapshot of
`"a"` is already active when `begin_transaction` runs again. -/
def stC9 : MgrState :=
  { mgr :=
      { current_transaction :=
          some
            { snapshots := [("a", { path := "a", content := some "pre", fexists := true })],
              modified_files := ["a"] },
        sandbox_cwd := none },
    fs := fun q => if q = "a" then some "cur" else none }

def opsC9 : List FileOp := [{ path := "b", op := fun _ => Except.ok (some "x") }]

def tC9 : Transaction :=
  { snapshots := [("b", { path := "b", content := none, fexists := false })],
    modified_files := ["b"] }

/-- Environment with a `coder` role installed, for the handoff witness. -/
def envHandoff : Env :=
  { baseEnv with
      roles := fun r =>
        if r = "coder" then some { model := "grok-4", prompt := some "You write code." }
        else none }

/-- Environment with the rate limiter enabled and counters beyond 80% of the
TPM limit, for the pacing witness. -/
def envPaced : Env :=
  { baseEnv with
      rate_limiter_enabled := true,
      rate_limit_config := some { max_context := 131072, tpm := 1000, rpm := 100 },
      tokens_used_this_minute := 900,
      requests_this_minute := 1 }

/-! ## Theorems -/

theorem string_append_empty (s : String) : s ++ "" = s := by
  cases s with
  | mk data => show String.mk (data ++ []) = String.mk data; rw [List.append_nil]

theorem string_empty_append (s : String) : "" ++ s = s := by
  cases s with
  | mk data => rfl

theorem foldl_est_sum :
    ∀ (l : List ToolCall) (b : Nat),
      l.foldl (fun acc tc =>
          acc + estimate_tokens tc.function.name + estimate_tokens tc.function.arguments) b =
        b + (l.map (fun tc =>
          estimate_tokens tc.function.name + estimate_tokens tc.function.arguments)).sum := by
  intro l
  induction l with
  | nil => intro b; simp
  | cons tc rest ih =>
      intro b
      simp only [List.foldl_cons, List.map_cons, List.sum_cons]
      rw [ih]
      omega

theorem message_tokens_eq_amended (msg : Message) :
    message_tokens msg = message_tokens_amended msg := by
  unfold message_tokens message_tokens_amended
  cases msg.content with
  | none =>
      cases msg.tool_calls with
      | none => simp
      | some tcs =>
          simp only [Option.getD_some]
          rw [foldl_est_sum]
  | some c =>
      cases msg.tool_calls with
      | none => simp
      | some tcs =>
          simp only [Option.getD_some]
          rw [foldl_est_sum]

/-- C6 counterexample: the token estimate is computed from UTF-8 byte
lengths, not character counts; the two differ on the message content
`"ééé"` (6 bytes, 3 characters). -/
theorem token_estimate_chars_counterexample :
    total_context_tokens
        [{ role := "user", content := some "ééé", tool_calls := none, tool_call_id := none }] ≠
      total_context_tokens_claimed
        [{ role := "user", content := some "ééé", tool_calls := none, tool_call_id := none }] := by
  decide

/-- C6 (amended): for every list of messages, the token estimate used for
display and budget decisions equals the sum over messages of a fixed
per-message role overhead of 4 plus `ceil(bytes/4)` of the message content
and `ceil(bytes/4)` of each tool call's name and arguments, where `bytes` is
the UTF-8 byte length of the text (Rust `str::len`). -/
theorem token_estimate_sum_of_parts (messages : List Message) :
    total_context_tokens messages = total_context_tokens_amended messages := by
  unfold total_context_tokens total_context_tokens_amended
  induction messages with
  | nil => rfl
  | cons msg rest ih =>
      simp only [List.map_cons, List.sum_cons, ih, message_tokens_eq_amended]

/-- C8: for every transcript whose estimated token count is below the
trigger threshold (70% of the model's max context), compression is a no-op
returning the identical transcript and reporting that no compression was
performed; in particular this covers an already-compressed transcript whose
tokens are below the trigger. -/
theorem compress_noop_below_trigger (history : List Message) (max_context : Nat)
    (hlt : total_context_tokens history < max_context * 7 / 10) :
    compress_history_if_needed history max_context = (history, false) := by
  unfold compress_history_if_needed
  simp only [if_pos hlt]

/-- C8 witness: a concrete two-message transcript far below the threshold. -/
theorem compress_noop_below_trigger_witness :
    total_context_tokens H0 < 1000000 * 7 / 10 ∧
      compress_history_if_needed H0 1000000 = (H0, false) :=
  ⟨by decide, compress_noop_below_trigger H0 1000000 (by decide)⟩

/-- `prepare_file` on a disallowed path: PermissionDenied, state unchanged. -/
theorem prepare_file_denied (st : MgrState) (path : String)
    (h : is_path_allowed st.mgr path = false) :
    prepare_file st path =
      (st, Except.error (IoError.permissionDenied (sandboxErrMsg path))) := by
  unfold prepare_file
  rw [h]
  rfl

/-- `prepare_file` on an allowed path succeeds. -/
theorem prepare_file_allowed_snd (st : MgrState) (path : String)
    (h : is_path_allowed st.mgr path = true) :
    (prepare_file st path).2 = Except.ok () := by
  unfold prepare_file
  rw [h]
  cases st.mgr.current_transaction <;> rfl

/-- `prepare_file` on an allowed path leaves the file system unchanged. -/
theorem prepare_file_allowed_fs (st : MgrState) (path : String)
    (h : is_path_allowed st.mgr path = true) :
    (prepare_file st path).1.fs = st.fs := by
  unfold prepare_file
  rw [h]
  cases st.mgr.current_transaction <;> rfl

/-- `prepare_file` on an allowed path snapshots it in the active
transaction. -/
theorem prepare_file_allowed_txn (st : MgrState) (path : String) (t : Transaction)
    (h : is_path_allowed st.mgr path = true)
    (htx : st.mgr.current_transaction = some t) :
    (prepare_file st path).1.mgr.current_transaction = some (t.snapshot_file st.fs path) := by
  unfold prepare_file
  rw [h, htx]
  simp

/-- The sandbox check fails exactly on absolute paths missing the root as a
string prefix. -/
theorem is_path_allowed_false_iff (m : TransactionManager) (root path : String)
    (hsb : m.sandbox_cwd = some root) :
    is_path_allowed m path = false ↔
      (isAbsolutePath path = true ∧ rust_starts_with path root = false) := by
  unfold is_path_allowed rust_starts_with
  rw [hsb]
  cases habs : isAbsolutePath path <;>
    cases hpre : root.data.isPrefixOf path.data <;> simp [habs, hpre]

/-- The PermissionDenied characterization for `prepare_file`. -/
theorem prepare_file_permission (st : MgrState) (path : String) :
    (prepare_file st path).2 =
        Except.error (IoError.permissionDenied (sandboxErrMsg path)) ↔
      is_path_allowed st.mgr path = false := by
  cases hallow : is_path_allowed st.mgr path
  · rw [prepare_file_denied st path hallow]
    simp
  · rw [prepare_file_allowed_snd st path hallow]
    simp

/-- The PermissionDenied characterization for `execute_file_operation`, for
mutation closures that never fabricate a PermissionDenied error. -/
theorem execute_file_operation_permission (st : MgrState) (path : String)
    (op : Option String → Except IoError (Option String))
    (hop : ∀ c m, op c ≠ Except.error (IoError.permissionDenied m)) :
    (execute_file_operation st path op).2 =
        Except.error (IoError.permissionDenied (sandboxErrMsg path)) ↔
      is_path_allowed st.mgr path = false := by
  unfold execute_file_operation
  cases hallow : is_path_allowed st.mgr path
  · rw [prepare_file_denied st path hallow]
    simp
  · have h2 := prepare_file_allowed_snd st path hallow
    rcases hpf : prepare_file st path with ⟨st1, r⟩
    rw [hpf] at h2
    simp only at h2
    subst h2
    cases ho : op (st1.fs path) with
    | error e =>
        simp only [ho, Except.error.injEq]
        constructor
        · intro h
          exact absurd (h ▸ ho) (hop _ _)
        · intro h
          simp at h
    | ok nc =>
        simp [ho]

/-- C10: with a sandbox root set, `prepare_file` (and therefore
`execute_file_operation`, for any mutation closure that never fabricates a
PermissionDenied error of its own) returns a PermissionDenied error exactly
when the path is absolute (starts with `/`) and does not carry the sandbox
root as a plain string prefix; every other path — every relative path,
including ones with `..` segments, and every absolute path merely sharing
the root as a textual prefix — is accepted and snapshotted in the active
transaction. -/
theorem sandbox_permission_boundary (st : MgrState) (root path : String)
    (hsb : st.mgr.sandbox_cwd = some root)
    (op : Option String → Except IoError (Option String))
    (hop : ∀ c m, op c ≠ Except.error (IoError.permissionDenied m)) :
    ((prepare_file st path).2 =
        Except.error (IoError.permissionDenied (sandboxErrMsg path)) ↔
      (isAbsolutePath path = true ∧ rust_starts_with path root = false)) ∧
    ((execute_file_operation st path op).2 =
        Except.error (IoError.permissionDenied (sandboxErrMsg path)) ↔
      (isAbsolutePath path = true ∧ rust_starts_with path root = false)) ∧
    (∀ t, st.mgr.current_transaction = some t →
      ¬(isAbsolutePath path = true ∧ rust_starts_with path root = false) →
      (prepare_file st path).1.mgr.current_transaction =
        some (t.snapshot_file st.fs path)) := by
  refine ⟨?_, ?_, ?_⟩
  · exact (prepare_file_permission st path).trans (is_path_allowed_false_iff st.mgr root path hsb)
  · exact (execute_file_operation_permission st path op hop).trans
      (is_path_allowed_false_iff st.mgr root path hsb)
  · intro t htx hneg
    have hallow : is_path_allowed st.mgr path = true := by
      cases hv : is_path_allowed st.mgr path
      · exact absurd ((is_path_allowed_false_iff st.mgr root path hsb).mp hv) hneg
      · rfl
    exact prepare_file_allowed_txn st path t hallow htx

/-- C10 witness: a sandbox rooted at `/home/user/proj` with an active
transaction, instantiated at the relative path `../etc/passwd`, which the
characterization classifies as allowed. -/
theorem sandbox_permission_boundary_witness :
    sandboxSt.mgr.sandbox_cwd = some "/home/user/proj" ∧
    ((prepare_file sandboxSt "../etc/passwd").2 =
        Except.error (IoError.permissionDenied (sandboxErrMsg "../etc/passwd")) ↔
      (isAbsolutePath "../etc/passwd" = true ∧
        rust_starts_with "../etc/passwd" "/home/user/proj" = false)) :=
  ⟨rfl, (sandbox_permission_boundary sandboxSt "/home/user/proj" "../etc/passwd" rfl
    (fun c => Except.ok c) (fun _ _ h => Except.noConfusion h)).1⟩

theorem lookup_cons_eq (k : String) (s : FileSnapshot) (l : List (String × FileSnapshot)) :
    ((k, s) :: l).lookup k = some s := by
  simp [List.lookup]

theorem lookup_cons_ne (k p : String) (s : FileSnapshot) (l : List (String × FileSnapshot))
    (h : p ≠ k) : ((k, s) :: l).lookup p = l.lookup p := by
  have hbeq : (p == k) = false := beq_eq_false_iff_ne.mpr h
  simp [List.lookup, hbeq]

theorem lookup_mem :
    ∀ (l : List (String × FileSnapshot)) (p : String) (s : FileSnapshot),
      l.lookup p = some s → (p, s) ∈ l := by
  intro l
  induction l with
  | nil => intro p s h; simp [List.lookup] at h
  | cons kv rest ih =>
      intro p s h
      obtain ⟨k, b⟩ := kv
      by_cases hk : p = k
      · subst hk
        rw [lookup_cons_eq] at h
        obtain rfl := Option.some.inj h
        exact List.mem_cons_self _ _
      · rw [lookup_cons_ne k p b rest hk] at h
        exact List.mem_cons_of_mem _ (ih p s h)

theorem lookup_none_not_mem :
    ∀ (l : List (String × FileSnapshot)) (p : String),
      l.lookup p = none → p ∉ l.map Prod.fst := by
  intro l
  induction l with
  | nil => intro p _; simp
  | cons kv rest ih =>
      intro p h
      obtain ⟨k, b⟩ := kv
      by_cases hk : p = k
      · subst hk
        rw [lookup_cons_eq] at h
        exact absurd h (by simp)
      · rw [lookup_cons_ne k p b rest hk] at h
        simp only [List.map_cons, List.mem_cons]
        intro hmem
        rcases hmem with h1 | h2
        · exact hk h1
        · exact ih p h h2

theorem lookup_append_left :
    ∀ (l1 l2 : List (String × FileSnapshot)) (p : String) (s : FileSnapshot),
      l1.lookup p = some s → (l1 ++ l2).lookup p = some s := by
  intro l1
  induction l1 with
  | nil => intro l2 p s h; simp [List.lookup] at h
  | cons kv rest ih =>
      intro l2 p s h
      obtain ⟨k, b⟩ := kv
      by_cases hk : p = k
      · subst hk
        rw [lookup_cons_eq] at h
        simpa [lookup_cons_eq] using h
      · rw [lookup_cons_ne k p b rest hk] at h
        rw [List.cons_append, lookup_cons_ne k p b (rest ++ l2) hk]
        exact ih l2 p s h

theorem lookup_append_right :
    ∀ (l1 l2 : List (String × FileSnapshot)) (p : String),
      l1.lookup p = none → (l1 ++ l2).lookup p = l2.lookup p := by
  intro l1
  induction l1 with
  | nil => intro l2 p _; rfl
  | cons kv rest ih =>
      intro l2 p h
      obtain ⟨k, b⟩ := kv
      by_cases hk : p = k
      · subst hk
        rw [lookup_cons_eq] at h
        exact absurd h (by simp)
      · rw [lookup_cons_ne k p b rest hk] at h
        rw [List.cons_append, lookup_cons_ne k p b (rest ++ l2) hk]
        exact ih l2 p h

theorem restore_at_path (s : FileSnapshot) (fs : FS)
    (hwf : s.fexists = s.content.isSome) :
    s.restore fs s.path = s.content := by
  unfold FileSnapshot.restore
  cases hc : s.content with
  | some c =>
      have hex : s.fexists = true := by rw [hwf, hc]; rfl
      simp [hex, fsWrite]
  | none =>
      have hex : s.fexists = false := by rw [hwf, hc]; rfl
      rw [hex]
      simp only [Bool.false_eq_true, if_false]
      cases hfs : fs s.path with
      | some v => simp [hfs, fsRemove]
      | none => simp [hfs]

theorem restore_other (s : FileSnapshot) (fs : FS) (q : String) (hq : q ≠ s.path) :
    s.restore fs q = fs q := by
  unfold FileSnapshot.restore
  cases s.fexists with
  | true =>
      cases s.content with
      | some c => simp [fsWrite, hq]
      | none => simp
  | false =>
      cases hfs : (fs s.path).isSome with
      | true => simp [hfs, fsRemove, hq]
      | false => simp [hfs]

theorem rollback_fold_not_mem :
    ∀ (l : List (String × FileSnapshot)) (fs : FS) (p : String),
      (∀ q s, (q, s) ∈ l → s.path = q) →
      p ∉ l.map Prod.fst →
      l.foldl (fun acc pr => pr.2.restore acc) fs p = fs p := by
  intro l
  induction l with
  | nil => intros; rfl
  | cons kv rest ih =>
      intro fs p hpaths hnm
      obtain ⟨k, s⟩ := kv
      simp only [List.map_cons, List.mem_cons] at hnm
      push_neg at hnm
      simp only [List.foldl_cons]
      rw [ih (s.restore fs) p
        (fun q s' hm => hpaths q s' (List.mem_cons_of_mem _ hm)) hnm.2]
      exact restore_other s fs p
        (by rw [hpaths k s (List.mem_cons_self _ _)]; exact hnm.1)

theorem rollback_fold_lookup :
    ∀ (l : List (String × FileSnapshot)) (fs : FS) (p : String) (snap : FileSnapshot),
      (∀ q s, (q, s) ∈ l → s.path = q ∧ s.fexists = s.content.isSome) →
      (l.map Prod.fst).Nodup →
      l.lookup p = some snap →
      l.foldl (fun acc pr => pr.2.restore acc) fs p = snap.content := by
  intro l
  induction l with
  | nil => intro fs p snap _ _ h; simp [List.lookup] at h
  | cons kv rest ih =>
      intro fs p snap hwf hnd hlk
      obtain ⟨k, s⟩ := kv
      simp only [List.map_cons, List.nodup_cons] at hnd
      simp only [List.foldl_cons]
      by_cases hk : p = k
      · subst hk
        rw [lookup_cons_eq] at hlk
        have hs : s = snap := Option.some.inj hlk
        obtain ⟨hpath, hex⟩ := hwf p s (List.mem_cons_self _ _)
        rw [rollback_fold_not_mem rest (s.restore fs) p
          (fun q s' hm => (hwf q s' (List.mem_cons_of_mem _ hm)).1) hnd.1]
        rw [← hs, ← hpath]
        exact restore_at_path s fs hex
      · rw [lookup_cons_ne k p s rest hk] at hlk
        exact ih (s.restore fs) p snap
          (fun q s' hm => hwf q s' (List.mem_cons_of_mem _ hm)) hnd.2 hlk

theorem prepare_file_allowed_some (st : MgrState) (path : String) (t : Transaction)
    (h : is_path_allowed st.mgr path = true)
    (htx : st.mgr.current_transaction = some t) :
    prepare_file st path =
      ({ st with
          mgr := { st.mgr with current_transaction := some (t.snapshot_file st.fs path) } },
        Except.ok ()) := by
  unfold prepare_file
  rw [h, htx]
  simp

theorem mark_file_modified_fs (st : MgrState) (p : String) :
    (mark_file_modified st p).fs = st.fs := by
  unfold mark_file_modified
  cases st.mgr.current_transaction <;> rfl

theorem mark_modified_snapshots (t : Transaction) (p : String) :
    (t.mark_modified p).snapshots = t.snapshots := by
  unfold Transaction.mark_modified
  split <;> rfl

/-- `execute_file_operation` on an allowed path with an active transaction:
snapshot first, then mutate, then mark. -/
theorem execute_allowed_eq (st : MgrState) (path : String) (t : Transaction)
    (op : Option String → Except IoError (Option String))
    (hallow : is_path_allowed st.mgr path = true)
    (htx : st.mgr.current_transaction = some t) :
    execute_file_operation st path op =
      match op (st.fs path) with
      | Except.error e =>
          ({ st with
              mgr :=
                { st.mgr with
                    current_transaction := some (t.snapshot_file st.fs path) } },
            Except.error e)
      | Except.ok nc =>
          (mark_file_modified
            { mgr :=
                { st.mgr with
                    current_transaction := some (t.snapshot_file st.fs path) },
              fs := fun q => if q = path then nc else st.fs q } path,
            Except.ok ()) := by
  unfold execute_file_operation
  rw [prepare_file_allowed_some st path t hallow htx]

/-- The transaction invariant is preserved by each `execute_file_operation`
call, whatever its path, mutation closure, and outcome. -/
theorem txnInv_step (fs0 : FS) (st : MgrState) (f : FileOp) (h : TxnInv fs0 st) :
    TxnInv fs0 (execute_file_operation st f.path f.op).1 := by
  obtain ⟨t, htx, hsn, hnd, hfs⟩ := h
  cases hallow : is_path_allowed st.mgr f.path with
  | false =>
      unfold execute_file_operation
      rw [prepare_file_denied st f.path hallow]
      exact ⟨t, htx, hsn, hnd, hfs⟩
  | true =>
      set t1 := t.snapshot_file st.fs f.path with ht1
      have hsn1 : ∀ q s, (q, s) ∈ t1.snapshots →
          s.path = q ∧ s.content = fs0 q ∧ s.fexists = (fs0 q).isSome := by
        intro q s hm
        rw [ht1] at hm
        unfold Transaction.snapshot_file at hm
        by_cases hl : (t.snapshots.lookup f.path).isSome
        · rw [if_pos hl] at hm
          exact hsn q s hm
        · rw [if_neg hl] at hm
          simp only [List.mem_append, List.mem_singleton] at hm
          rcases hm with hm | hm
          · exact hsn q s hm
          · obtain ⟨rfl, rfl⟩ := Prod.mk.inj hm
            have hln : t.snapshots.lookup f.path = none :=
              Option.not_isSome_iff_eq_none.mp hl
            have := hfs f.path hln
            refine ⟨rfl, this, ?_⟩
            show (st.fs f.path).isSome = (fs0 f.path).isSome
            rw [this]
      have hnd1 : (t1.snapshots.map Prod.fst).Nodup := by
        rw [ht1]
        unfold Transaction.snapshot_file
        by_cases hl : (t.snapshots.lookup f.path).isSome
        · rw [if_pos hl]; exact hnd
        · rw [if_neg hl]
          have hln : t.snapshots.lookup f.path = none :=
            Option.not_isSome_iff_eq_none.mp hl
          simp only [List.map_append, List.map_cons, List.map_nil]
          rw [List.nodup_append]
          refine ⟨hnd, List.nodup_singleton _, ?_⟩
          intro x hx hx2
          simp only [List.mem_singleton] at hx2
          subst hx2
          exact lookup_none_not_mem t.snapshots f.path hln hx
      have hlk1 : (t1.snapshots.lookup f.path).isSome := by
        rw [ht1]
        unfold Transaction.snapshot_file
        by_cases hl : (t.snapshots.lookup f.path).isSome
        · rw [if_pos hl]; exact hl
        · rw [if_neg hl]
          have hln : t.snapshots.lookup f.path = none :=
            Option.not_isSome_iff_eq_none.mp hl
          rw [lookup_append_right _ _ _ hln, lookup_cons_eq]
          rfl
      have hsub : ∀ q, t1.snapshots.lookup q = none → t.snapshots.lookup q = none := by
        intro q hq
        rw [ht1] at hq
        unfold Transaction.snapshot_file at hq
        by_cases hl : (t.snapshots.lookup f.path).isSome
        · rw [if_pos hl] at hq; exact hq
        · rw [if_neg hl] at hq
          cases hv : t.snapshots.lookup q with
          | none => rfl
          | some s' =>
              rw [lookup_append_left _ _ _ _ hv] at hq
              exact absurd hq (by simp)
      rw [execute_allowed_eq st f.path t f.op hallow htx, ← ht1]
      cases hop : f.op (st.fs f.path) with
      | error e =>
          exact ⟨t1, rfl, hsn1, hnd1, fun q hq => hfs q (hsub q hq)⟩
      | ok nc =>
          refine ⟨t1.mark_modified f.path, rfl, ?_, ?_, ?_⟩
          · intro q s hm
            rw [mark_modified_snapshots] at hm
            exact hsn1 q s hm
          · rw [mark_modified_snapshots]
            exact hnd1
          · intro q hq
            rw [mark_modified_snapshots] at hq
            have hqp : q ≠ f.path := by
              intro hcontra
              subst hcontra
              rw [hq] at hlk1
              exact absurd hlk1 (by simp)
            show (if q = f.path then nc else st.fs q) = fs0 q
            rw [if_neg hqp]
            exact hfs q (hsub q hq)

theorem txnInv_run (fs0 : FS) :
    ∀ (ops : List FileOp) (st : MgrState), TxnInv fs0 st → TxnInv fs0 (runFileOps st ops) := by
  intro ops
  induction ops with
  | nil => intro st h; exact h
  | cons f rest ih =>
      intro st h
      exact ih _ (txnInv_step fs0 st f h)

theorem txnInv_begin (st : MgrState) : TxnInv st.fs (begin_transaction st) := by
  refine ⟨Transaction.new, rfl, ?_, ?_, ?_⟩
  · intro q s hm; simp [Transaction.new] at hm
  · simp [Transaction.new]
  · intro q _; rfl

/-- C1: for every transaction and every path `p` snapshotted in it, after
`rollback()` the path `p` holds exactly its pre-transaction state: the
content captured the first time `p` was touched (which, since every mutation
passes through `execute_file_operation` on its own path, equals the state at
transaction begin), or absence if it did not exist then — regardless of how
many mutations were applied to `p` afterwards, because the first-touch
snapshot is never overwritten within the transaction. -/
theorem transaction_rollback_exact (m : TransactionManager) (fs0 : FS)
    (ops : List FileOp) (p : String) (t : Transaction) (snap : FileSnapshot)
    (ht : (runFileOps (begin_transaction { mgr := m, fs := fs0 }) ops).mgr.current_transaction =
      some t)
    (hsnap : t.snapshots.lookup p = some snap) :
    (rollback_transaction (runFileOps (begin_transaction { mgr := m, fs := fs0 }) ops)).fs p =
        fs0 p ∧
      snap.content = fs0 p ∧ snap.fexists = (fs0 p).isSome := by
  have hinv := txnInv_run ({ mgr := m, fs := fs0 } : MgrState).fs ops
    (begin_transaction { mgr := m, fs := fs0 }) (txnInv_begin _)
  obtain ⟨t', ht', hsn, hnd, hfs⟩ := hinv
  rw [ht] at ht'
  obtain rfl := Option.some.inj ht'
  have hmem := lookup_mem t.snapshots p snap hsnap
  obtain ⟨hpath, hcontent, hex⟩ := hsn p snap hmem
  refine ⟨?_, hcontent, hex⟩
  unfold rollback_transaction
  rw [ht]
  show t.rollback (runFileOps (begin_transaction { mgr := m, fs := fs0 }) ops).fs p = fs0 p
  unfold Transaction.rollback
  rw [rollback_fold_lookup t.snapshots _ p snap
    (fun q s hm => ⟨(hsn q s hm).1, by rw [(hsn q s hm).2.1, (hsn q s hm).2.2]⟩)
    hnd hsnap]
  exact hcontent

/-- C1 witness: `"a"` is rewritten then deleted and `"b"` created inside one
transaction; rollback restores `"a"` to its first-touch (pre-transaction)
content and the snapshot recorded for `"a"` is exactly the pre-transaction
state. -/
theorem transaction_rollback_exact_witness :
    ((runFileOps (begin_transaction { mgr := mC1, fs := fsC1 }) opsC1).mgr.current_transaction =
        some tC1 ∧
      tC1.snapshots.lookup "a" = some snapC1) ∧
    ((rollback_transaction
        (runFileOps (begin_transaction { mgr := mC1, fs := fsC1 }) opsC1)).fs "a" = fsC1 "a" ∧
      snapC1.content = fsC1 "a" ∧ snapC1.fexists = (fsC1 "a").isSome) :=
  ⟨⟨by decide, by decide⟩,
    transaction_rollback_exact mC1 fsC1 opsC1 "a" tC1 snapC1 (by decide) (by decide)⟩

/-- C9: `begin_transaction` always installs a fresh empty transaction,
touching neither the file system nor any path — even when a transaction
holding snapshots is already active (its snapshots are silently discarded);
consequently a rollback issued after the most recent `begin_transaction`
(as happens when a role handoff re-enters `process_conversation`, whose
prologue begins a new transaction) restores only paths first touched after
that begin: any path without a snapshot in the new transaction — including
every path snapshotted only before the handoff — is left exactly as the
post-mutation file system has it. -/
theorem begin_transaction_fresh_rollback_scope (st : MgrState) (ops : List FileOp)
    (p : String) (t2 : Transaction)
    (ht : (runFileOps (begin_transaction st) ops).mgr.current_transaction = some t2)
    (hp : t2.snapshots.lookup p = none) :
    (begin_transaction st).mgr.current_transaction = some Transaction.new ∧
    (begin_transaction st).fs = st.fs ∧
    (rollback_transaction (runFileOps (begin_transaction st) ops)).fs p =
      (runFileOps (begin_transaction st) ops).fs p := by
  refine ⟨rfl, rfl, ?_⟩
  have hinv := txnInv_run st.fs ops (begin_transaction st) (txnInv_begin st)
  obtain ⟨t', ht', hsn, hnd, hfs⟩ := hinv
  rw [ht] at ht'
  obtain rfl := Option.some.inj ht'
  unfold rollback_transaction
  rw [ht]
  show t2.rollback (runFileOps (begin_transaction st) ops).fs p = _
  unfold Transaction.rollback
  exact rollback_fold_not_mem t2.snapshots _ p (fun q s hm => (hsn q s hm).1)
    (lookup_none_not_mem t2.snapshots p hp)

/-- C9 witness: an active transaction snapshots `"a"` (pre-content `"pre"`),
then `begin_transaction` runs again, `"b"` is mutated, and rollback leaves
`"a"` at its current content `"cur"` — the pre-handoff snapshot is
discarded. -/
theorem begin_transaction_fresh_rollback_scope_witness :
    ((runFileOps (begin_transaction stC9) opsC9).mgr.current_transaction = some tC9 ∧
      tC9.snapshots.lookup "a" = none) ∧
    ((begin_transaction stC9).mgr.current_transaction = some Transaction.new ∧
      (begin_transaction stC9).fs = stC9.fs ∧
      (rollback_transaction (runFileOps (begin_transaction stC9) opsC9)).fs "a" =
        (runFileOps (begin_transaction stC9) opsC9).fs "a") :=
  ⟨⟨by decide, by decide⟩,
    begin_transaction_fresh_rollback_scope stC9 opsC9 "a" tC9 (by decide) (by decide)⟩

/-- C4: whenever compression performs a rewrite, the rebuilt transcript is
the original first (system) message unchanged, then the synthetic system
summary message (unless the aggressive fallback drops it), then the last
`keep_recent` original messages unchanged; the messages moved into the
summary are exactly the slice strictly between the system message and the
kept tail, of length at most `len - keep_recent - 1`. -/
theorem compress_rewrite_shape (history : List Message) (max_context : Nat)
    (out : List Message)
    (hc : compress_history_if_needed history max_context = (out, true)) :
    (out = history.take 1 ++ [compress_summary_msg history max_context] ++
        history.drop (history.length - compress_keep_recent history max_context) ∨
      out = history.take 1 ++
        history.drop (history.length - compress_keep_recent history max_context)) ∧
    (compress_to_summarize history max_context).length ≤
      history.length - compress_keep_recent history max_context - 1 := by
  constructor
  · simp only [compress_history_if_needed] at hc
    split at hc
    · exact absurd (Prod.mk.inj hc).2 (by simp)
    · split at hc
      · exact absurd (Prod.mk.inj hc).2 (by simp)
      · split at hc
        · exact absurd (Prod.mk.inj hc).2 (by simp)
        · rename_i hlt hlen hts
          cases history with
          | nil => exact absurd (by simp) hlen
          | cons h0 hrest =>
              split at hc
              · right
                rw [← (Prod.mk.inj hc).1]
                simp only [compress_summary_msg, compress_to_summarize,
                  compress_keep_recent]
                try rfl
              · left
                rw [← (Prod.mk.inj hc).1]
                simp only [compress_summary_msg, compress_to_summarize,
                  compress_keep_recent]
                try rfl
  · simp only [compress_to_summarize]
    rw [List.length_take]
    exact Nat.min_le_left _ _

/-- C4 witness: eight short user messages against a max context of 10 — the
rewrite fires (here taking the aggressive-fallback branch that drops the
summary message) and the shape property holds. -/
theorem compress_rewrite_shape_witness :
    compress_history_if_needed histC4 10 = (List.replicate 7 msgC4, true) ∧
    ((List.replicate 7 msgC4 = histC4.take 1 ++ [compress_summary_msg histC4 10] ++
        histC4.drop (histC4.length - compress_keep_recent histC4 10) ∨
      List.replicate 7 msgC4 = histC4.take 1 ++
        histC4.drop (histC4.length - compress_keep_recent histC4 10)) ∧
      (compress_to_summarize histC4 10).length ≤
        histC4.length - compress_keep_recent histC4 10 - 1) :=
  ⟨by decide, compress_rewrite_shape histC4 10 (List.replicate 7 msgC4) (by decide)⟩

/-- C2 counterexample: with three consecutive empty assistant responses
available, the engine consumes only two, appends exactly one nudge message —
not the two consecutive nudge retries the claim's "retried up to 2 times"
implies — and has already emitted its single warning and single rollback on
the second empty response, when the counter reaches (rather than exceeds)
the maximum of 2. -/
theorem empty_retry_counterexample :
    (process_conversation baseEnv
        [ApiResult.ok "" [], ApiResult.ok "" [], ApiResult.ok "" []] H0 none).history =
      H0 ++ [nudgeMessage] ∧
    ¬((process_conversation baseEnv
        [ApiResult.ok "" [], ApiResult.ok "" [], ApiResult.ok "" []] H0 none).history =
      H0 ++ [nudgeMessage, nudgeMessage]) ∧
    (process_conversation baseEnv
        [ApiResult.ok "" [], ApiResult.ok "" [], ApiResult.ok "" []] H0 none).trace.count
      (Action.send (AppEvent.NewMessage emptyWarningMessage)) = 1 ∧
    (process_conversation baseEnv
        [ApiResult.ok "" [], ApiResult.ok "" [], ApiResult.ok "" []] H0 none).trace.count
      Action.rollbackTxn = 1 := by
  decide

/-- C2 (amended): an assistant turn with neither content nor tool calls
increments the empty-response retry counter (maximum 2); while the counter
is below the maximum, each retry appends the nudge user message "Please
continue with your response." and restarts streaming — so the turn is
retried at most once; when the counter reaches the maximum (the second
consecutive empty response) the engine emits exactly one user-visible
empty-response warning message and performs exactly one transaction
rollback, ending the turn.  Stated as the exact action trace of two
consecutive empty responses. -/
theorem empty_retry_policy (env : Env) (H : List Message) (rest : List ApiResult)
    (hrl : env.rate_limiter_enabled = false)
    (hc1 : compress_history_if_needed H env.max_context = (H, false))
    (hc2 : compress_history_if_needed (H ++ [nudgeMessage]) env.max_context =
      (H ++ [nudgeMessage], false)) :
    process_conversation env (ApiResult.ok "" [] :: ApiResult.ok "" [] :: rest) H none =
      { trace := [Action.beginTxn,
          Action.send (AppEvent.StatusUpdate "Thinking..."),
          Action.request env.base_model H,
          Action.send (AppEvent.StatusUpdate "Retrying (1/2)..."),
          Action.send (AppEvent.StatusUpdate "Thinking..."),
          Action.request env.base_model (H ++ [nudgeMessage]),
          Action.send (AppEvent.StatusUpdate "Model returned empty response"),
          Action.send (AppEvent.NewMessage emptyWarningMessage),
          Action.rollbackTxn,
          Action.send AppEvent.Finished,
          Action.commitTxn],
        history := H ++ [nudgeMessage], ran_out := false } := by
  have hemp : "".isEmpty = true := rfl
  have hstr : "Retrying (" ++ toString 1 ++ "/" ++ toString 2 ++ ")..." = "Retrying (1/2)..." := by
    decide
  simp [process_conversation, conv_loop, inject_role_prompt, role_entry_trace,
    iter_prefix, rate_limit_trace, hrl, hc1, hc2, MAX_EMPTY_RETRIES, hemp, hstr]

/-- C2 witness: the amended policy instantiated on a concrete environment
and transcript. -/
theorem empty_retry_policy_witness :
    (baseEnv.rate_limiter_enabled = false ∧
      compress_history_if_needed H0 baseEnv.max_context = (H0, false) ∧
      compress_history_if_needed (H0 ++ [nudgeMessage]) baseEnv.max_context =
        (H0 ++ [nudgeMessage], false)) ∧
    process_conversation baseEnv [ApiResult.ok "" [], ApiResult.ok "" []] H0 none =
      { trace := [Action.beginTxn,
          Action.send (AppEvent.StatusUpdate "Thinking..."),
          Action.request baseEnv.base_model H0,
          Action.send (AppEvent.StatusUpdate "Retrying (1/2)..."),
          Action.send (AppEvent.StatusUpdate "Thinking..."),
          Action.request baseEnv.base_model (H0 ++ [nudgeMessage]),
          Action.send (AppEvent.StatusUpdate "Model returned empty response"),
          Action.send (AppEvent.NewMessage emptyWarningMessage),
          Action.rollbackTxn,
          Action.send AppEvent.Finished,
          Action.commitTxn],
        history := H0 ++ [nudgeMessage], ran_out := false } :=
  ⟨⟨rfl, by decide, by decide⟩, empty_retry_policy baseEnv H0 [] rfl (by decide) (by decide)⟩

/-- `run_batch` only ever appends to the action trace. -/
theorem run_batch_trace_mono (env : Env) :
    ∀ (tcs : List ToolCall) (history : List Message) (t : List Action),
      (∃ u h2, run_batch env tcs history t = BatchOut.suspended (t ++ u) h2) ∨
      (∃ u h2, run_batch env tcs history t = BatchOut.completed (t ++ u) h2) := by
  intro tcs
  induction tcs with
  | nil =>
      intro history t
      right
      exact ⟨[], history, by simp [run_batch]⟩
  | cons tc rest ih =>
      intro history t
      simp only [run_batch]
      split
      · left; exact ⟨_, history, rfl⟩
      · split
        · left; exact ⟨_, history, rfl⟩
        · split
          · left; exact ⟨_, history, rfl⟩
          · split
            · left; exact ⟨_, history, rfl⟩
            · split
              · rcases ih (history ++ [_]) (t ++ [Action.send (AppEvent.TodoUpdate tc.function.arguments),
                  Action.send (AppEvent.NewMessage
                    { role := "tool", content := some "Todo list updated.", tool_calls := none,
                      tool_call_id := some tc.id })]) with ⟨u, h2, heq⟩ | ⟨u, h2, heq⟩
                · left; exact ⟨_, h2, by rw [heq, List.append_assoc]⟩
                · right; exact ⟨_, h2, by rw [heq, List.append_assoc]⟩
              · rcases ih (history ++ [_]) (t ++ [Action.send (AppEvent.StatusUpdate
                    ("Running tool: " ++ tc.function.name ++ "...")),
                  Action.execTool tc.function.name tc.function.arguments,
                  Action.send (AppEvent.NewMessage
                    { role := "tool", content := some (env.execute_tool tc.function.name tc.function.arguments),
                      tool_calls := none, tool_call_id := some tc.id })]) with ⟨u, h2, heq⟩ | ⟨u, h2, heq⟩
                · left; exact ⟨_, h2, by rw [heq, List.append_assoc]⟩
                · right; exact ⟨_, h2, by rw [heq, List.append_assoc]⟩

/-- `conv_loop` only ever appends to the action trace it is given. -/
theorem conv_loop_trace_mono (env : Env) :
    ∀ (script : List ApiResult) (history : List Message) (role : Option ActiveRole)
      (n : Nat) (t : List Action),
      ∃ u, (conv_loop env script history role n t).trace = t ++ u := by
  intro script
  induction script with
  | nil =>
      intro history role n t
      exact ⟨_, rfl⟩
  | cons r rest ih =>
      intro history role n t
      cases r with
      | fail e =>
          simp only [conv_loop]
          exact ⟨_, by try simp only [List.append_assoc]; rfl⟩
      | ok content tcs =>
          by_cases hce : content.isEmpty <;> by_cases hte : tcs.isEmpty
          · -- empty content, no tool calls: invalid response
            simp only [conv_loop]
            simp [hce, hte]
            split
            · exact ⟨_, by try simp only [List.append_assoc]; rfl⟩
            · obtain ⟨u2, hu2⟩ := ih _ role (n + 1) _
              exact ⟨_, hu2.trans (by try simp only [List.append_assoc]; rfl)⟩
          · -- empty content, tool calls present: valid, batch
            simp only [conv_loop]
            simp [hce, hte]
            rcases run_batch_trace_mono env tcs _ _ with ⟨u, h2, heq⟩ | ⟨u, h2, heq⟩ <;>
              rw [heq]
            · exact ⟨_, by try simp only [List.append_assoc]; rfl⟩
            · obtain ⟨u2, hu2⟩ := ih h2 role 0 _
              exact ⟨_, hu2.trans (by try simp only [List.append_assoc]; rfl)⟩
          · -- content present, no tool calls: handoff check
            simp only [conv_loop]
            simp [hce, hte]
            split
            · split
              · obtain ⟨u2, hu2⟩ := ih _ _ 0 _
                exact ⟨_, hu2.trans (by try simp only [List.append_assoc]; rfl)⟩
              · exact ⟨_, by try simp only [List.append_assoc]; rfl⟩
            · exact ⟨_, by try simp only [List.append_assoc]; rfl⟩
          · -- content present, tool calls present: valid, batch
            simp only [conv_loop]
            simp [hce, hte]
            rcases run_batch_trace_mono env tcs _ _ with ⟨u, h2, heq⟩ | ⟨u, h2, heq⟩ <;>
              rw [heq]
            · exact ⟨_, by try simp only [List.append_assoc]; rfl⟩
            · obtain ⟨u2, hu2⟩ := ih h2 role 0 _
              exact ⟨_, hu2.trans (by try simp only [List.append_assoc]; rfl)⟩

/-- The trace of any `conv_loop` invocation continues with the iteration
prefix (compression status, thinking status, rate-limiter block, request). -/
theorem conv_loop_trace_head (env : Env) (script : List ApiResult) (history : List Message)
    (role : Option ActiveRole) (n : Nat) (t : List Action) :
    ∃ u, (conv_loop env script history role n t).trace =
      t ++ iter_prefix env (compress_history_if_needed history env.max_context).2
        (compress_history_if_needed history env.max_context).1 role ++ u := by
  cases script with
  | nil => exact ⟨[], by simp [conv_loop]⟩
  | cons r rest =>
      cases r with
      | fail e =>
          simp only [conv_loop]
          exact ⟨_, by try simp only [List.append_assoc]; rfl⟩
      | ok content tcs =>
          by_cases hce : content.isEmpty <;> by_cases hte : tcs.isEmpty
          · simp only [conv_loop]
            simp [hce, hte]
            split
            · exact ⟨_, by try simp only [List.append_assoc]; rfl⟩
            · obtain ⟨u2, hu2⟩ := conv_loop_trace_mono env rest _ role (n + 1) _
              exact ⟨_, hu2.trans (by try simp only [List.append_assoc]; rfl)⟩
          · simp only [conv_loop]
            simp [hce, hte]
            rcases run_batch_trace_mono env tcs _ _ with ⟨u, h2, heq⟩ | ⟨u, h2, heq⟩ <;>
              rw [heq]
            · exact ⟨_, by try simp only [List.append_assoc]; rfl⟩
            · obtain ⟨u2, hu2⟩ := conv_loop_trace_mono env rest h2 role 0 _
              exact ⟨_, hu2.trans (by try simp only [List.append_assoc]; rfl)⟩
          · simp only [conv_loop]
            simp [hce, hte]
            split
            · split
              · obtain ⟨u2, hu2⟩ := conv_loop_trace_mono env rest _ _ 0 _
                exact ⟨_, hu2.trans (by try simp only [List.append_assoc]; rfl)⟩
              · exact ⟨_, by try simp only [List.append_assoc]; rfl⟩
            · exact ⟨_, by try simp only [List.append_assoc]; rfl⟩
          · simp only [conv_loop]
            simp [hce, hte]
            rcases run_batch_trace_mono env tcs _ _ with ⟨u, h2, heq⟩ | ⟨u, h2, heq⟩ <;>
              rw [heq]
            · exact ⟨_, by try simp only [List.append_assoc]; rfl⟩
            · obtain ⟨u2, hu2⟩ := conv_loop_trace_mono env rest h2 role 0 _
              exact ⟨_, hu2.trans (by try simp only [List.append_assoc]; rfl)⟩

/-- C5: a streamed assistant turn ending with non-empty content, no tool
calls, and a handoff directive naming a configured role appends the user
message "Continue with the following task:" plus the directive remainder and
restarts the whole turn under that role: the next request uses the role's
model, and the role's system prompt (when present) is injected as an extra
system message immediately after the primary system message. -/
theorem handoff_restarts_with_role (env : Env) (H : List Message) (rest : List ApiResult)
    (content : String) (d : RoleDirective) (rc : ModelRole) (prompt : String)
    (hrl : env.rate_limiter_enabled = false)
    (hcontent : content.isEmpty = false)
    (hfind : find_handoff_directive content = some d)
    (hrole : env.roles d.role = some rc)
    (hprompt : rc.prompt = some prompt)
    (hc1 : compress_history_if_needed H env.max_context = (H, false))
    (hc2 : compress_history_if_needed
        (inject_role_prompt (some (handoff_role d rc))
          (H ++ [assistant_text_message content, handoff_user_message d])) env.max_context =
      (inject_role_prompt (some (handoff_role d rc))
        (H ++ [assistant_text_message content, handoff_user_message d]), false)) :
    (∃ tail,
      (process_conversation env (ApiResult.ok content [] :: rest) H none).trace =
        [Action.beginTxn,
         Action.send (AppEvent.StatusUpdate "Thinking..."),
         Action.request env.base_model H,
         Action.send (AppEvent.NewMessage (assistant_text_message content)),
         Action.send (AppEvent.RoleSwitch "default" d.role),
         Action.send (AppEvent.NewMessage (handoff_user_message d)),
         Action.send (AppEvent.StatusUpdate ("@" ++ d.role ++ " thinking...")),
         Action.beginTxn,
         Action.send (AppEvent.StatusUpdate "Thinking..."),
         Action.request rc.model
           (inject_role_prompt (some (handoff_role d rc))
             (H ++ [assistant_text_message content, handoff_user_message d]))] ++ tail) ∧
    inject_role_prompt (some (handoff_role d rc))
        (H ++ [assistant_text_message content, handoff_user_message d]) =
      (H ++ [assistant_text_message content, handoff_user_message d]).take 1 ++
        [role_context_message d.role prompt] ++
        (H ++ [assistant_text_message content, handoff_user_message d]).drop 1 := by
  have hc2' := hc2
  simp only [assistant_text_message, handoff_user_message, handoff_role] at hc2'
  constructor
  · obtain ⟨u, hu⟩ := conv_loop_trace_head env rest
      (inject_role_prompt (some { name := d.role, model := rc.model, system_prompt := rc.prompt })
        (H ++ [{ role := "assistant", content := some content, tool_calls := none,
                  tool_call_id := none },
               { role := "user",
                 content := some ("Continue with the following task:\n" ++ d.content),
                 tool_calls := none, tool_call_id := none }]))
      (some { name := d.role, model := rc.model, system_prompt := rc.prompt }) 0 _
    refine ⟨u, ?_⟩
    have hinj : inject_role_prompt none H = H := rfl
    simp only [process_conversation, conv_loop]
    simp [hinj, hc1, hrl, hcontent, hfind, hrole, iter_prefix, rate_limit_trace,
      role_entry_trace, assistant_text_message, handoff_user_message, handoff_role]
    rw [hu]
    simp [hc2', iter_prefix, rate_limit_trace, hrl]
  · have hlen : 1 < (H ++ [assistant_text_message content, handoff_user_message d]).length := by
      simp
    simp [inject_role_prompt, handoff_role, hprompt, role_context_message, hlen]

/-- C5 witness: a concrete handoff to the `coder` role. -/
theorem handoff_restarts_with_role_witness :
    (envHandoff.rate_limiter_enabled = false ∧
      ("Plan:\n@coder: implement it").isEmpty = false ∧
      find_handoff_directive "Plan:\n@coder: implement it" =
        some { role := "coder", content := "implement it" } ∧
      envHandoff.roles "coder" = some { model := "grok-4", prompt := some "You write code." }) ∧
    ((∃ tail,
      (process_conversation envHandoff [ApiResult.ok "Plan:\n@coder: implement it" []]
          H0 none).trace =
        [Action.beginTxn,
         Action.send (AppEvent.StatusUpdate "Thinking..."),
         Action.request envHandoff.base_model H0,
         Action.send (AppEvent.NewMessage (assistant_text_message "Plan:\n@coder: implement it")),
         Action.send (AppEvent.RoleSwitch "default" "coder"),
         Action.send (AppEvent.NewMessage
           (handoff_user_message { role := "coder", content := "implement it" })),
         Action.send (AppEvent.StatusUpdate ("@" ++ "coder" ++ " thinking...")),
         Action.beginTxn,
         Action.send (AppEvent.StatusUpdate "Thinking..."),
         Action.request ({ model := "grok-4", prompt := some "You write code." } : ModelRole).model
           (inject_role_prompt
             (some (handoff_role { role := "coder", content := "implement it" }
               { model := "grok-4", prompt := some "You write code." }))
             (H0 ++ [assistant_text_message "Plan:\n@coder: implement it",
               handoff_user_message { role := "coder", content := "implement it" }]))] ++ tail) ∧
      inject_role_prompt
          (some (handoff_role { role := "coder", content := "implement it" }
            { model := "grok-4", prompt := some "You write code." }))
          (H0 ++ [assistant_text_message "Plan:\n@coder: implement it",
            handoff_user_message { role := "coder", content := "implement it" }]) =
        (H0 ++ [assistant_text_message "Plan:\n@coder: implement it",
          handoff_user_message { role := "coder", content := "implement it" }]).take 1 ++
          [role_context_message "coder" "You write code."] ++
          (H0 ++ [assistant_text_message "Plan:\n@coder: implement it",
            handoff_user_message { role := "coder", content := "implement it" }]).drop 1) :=
  ⟨⟨rfl, by decide, by decide, by decide⟩,
    handoff_restarts_with_role envHandoff H0 [] "Plan:\n@coder: implement it"
      { role := "coder", content := "implement it" }
      { model := "grok-4", prompt := some "You write code." } "You write code."
      rfl (by decide) (by decide) (by decide) rfl (by decide) (by decide)⟩

/-- C7: with the rate limiter enabled, a limit configured, and the rolling
counters at or above 80% of the tokens-per-minute or requests-per-minute
limit, the engine emits a pause event for 60 seconds, sleeps for the fixed
60-second cooldown, emits a resume event — whose handling on the consumer
side resets the rolling-window counters to zero — and only after that issues
the next streamed request. -/
theorem rate_limit_pause_before_request (env : Env) (script : List ApiResult)
    (H : List Message) (c : RateLimitConfig)
    (henabled : env.rate_limiter_enabled = true)
    (hcfg : env.rate_limit_config = some c)
    (hthr : env.tokens_used_this_minute ≥ c.tpm * 80 / 100 ∨
      env.requests_this_minute ≥ c.rpm * 80 / 100)
    (hc1 : compress_history_if_needed H env.max_context = (H, false)) :
    (∃ tail,
      (process_conversation env script H none).trace =
        [Action.beginTxn,
         Action.send (AppEvent.StatusUpdate "Thinking..."),
         Action.send (AppEvent.RateLimitPause 60),
         Action.send (AppEvent.StatusUpdate
           (rate_pause_status env.tokens_used_this_minute env.requests_this_minute c)),
         Action.sleep 60,
         Action.send AppEvent.RateLimitResume,
         Action.send (AppEvent.StatusUpdate "Rate limit cleared - resuming..."),
         Action.request env.base_model H] ++ tail) ∧
    (∀ st : ConsumerRate, handle_rate_event st AppEvent.RateLimitResume =
      { rate_limit_paused := false, rate_limit_resume_at_set := false,
        rate_limit_window_started := true,
        tokens_used_this_minute := 0, requests_this_minute := 0 }) := by
  constructor
  · obtain ⟨u, hu⟩ := conv_loop_trace_head env script H none 0 [Action.beginTxn]
    refine ⟨u, ?_⟩
    have hinj : inject_role_prompt none H = H := rfl
    simp only [process_conversation]
    simp only [hinj, role_entry_trace, List.nil_append]
    rw [hu]
    have hrt : rate_limit_trace env =
        [Action.send (AppEvent.RateLimitPause 60),
         Action.send (AppEvent.StatusUpdate
           (rate_pause_status env.tokens_used_this_minute env.requests_this_minute c)),
         Action.sleep 60,
         Action.send AppEvent.RateLimitResume,
         Action.send (AppEvent.StatusUpdate "Rate limit cleared - resuming...")] := by
      simp only [rate_limit_trace, henabled, hcfg, if_true]
      rw [if_pos hthr]
    simp [hc1, iter_prefix, hrt]
  · intro st
    rfl

/-- C7 witness: counters at 90% of a 1000-token TPM limit. -/
theorem rate_limit_pause_before_request_witness :
    (envPaced.rate_limiter_enabled = true ∧
      envPaced.rate_limit_config = some { max_context := 131072, tpm := 1000, rpm := 100 } ∧
      (envPaced.tokens_used_this_minute ≥ 1000 * 80 / 100 ∨
        envPaced.requests_this_minute ≥ 100 * 80 / 100) ∧
      compress_history_if_needed H0 envPaced.max_context = (H0, false)) ∧
    ((∃ tail,
      (process_conversation envPaced [] H0 none).trace =
        [Action.beginTxn,
         Action.send (AppEvent.StatusUpdate "Thinking..."),
         Action.send (AppEvent.RateLimitPause 60),
         Action.send (AppEvent.StatusUpdate
           (rate_pause_status envPaced.tokens_used_this_minute envPaced.requests_this_minute
             { max_context := 131072, tpm := 1000, rpm := 100 })),
         Action.sleep 60,
         Action.send AppEvent.RateLimitResume,
         Action.send (AppEvent.StatusUpdate "Rate limit cleared - resuming..."),
         Action.request envPaced.base_model H0] ++ tail) ∧
      (∀ st : ConsumerRate, handle_rate_event st AppEvent.RateLimitResume =
        { rate_limit_paused := false, rate_limit_resume_at_set := false,
          rate_limit_window_started := true,
          tokens_used_this_minute := 0, requests_this_minute := 0 })) :=
  ⟨⟨rfl, rfl, by decide, by decide⟩,
    rate_limit_pause_before_request envPaced [] H0
      { max_context := 131072, tpm := 1000, rpm := 100 }
      rfl rfl (by decide) (by decide)⟩

theorem string_append_assoc (a b c : String) : a ++ b ++ c = a ++ (b ++ c) := by
  cases a with
  | mk da =>
      cases b with
      | mk db =>
          cases c with
          | mk dc =>
              show String.mk (da ++ db ++ dc) = String.mk (da ++ (db ++ dc))
              rw [List.append_assoc]

theorem drainAux_acc_shift (parse : List Char → Option Frame) :
    ∀ (xs : List Char), '\n' ∉ xs → ∀ (r pre : List Char) (st : DecState),
      drainAux parse (xs ++ r) pre st = drainAux parse r (pre ++ xs) st := by
  intro xs
  induction xs with
  | nil => intro _ r pre st; simp
  | cons c cs ih =>
      intro hnl r pre st
      simp only [List.mem_cons, not_or] at hnl
      simp only [List.cons_append, drainAux, List.append_eq]
      rw [if_neg (fun h => hnl.1 h.symm)]
      rw [ih hnl.2 r (pre ++ [c]) st]
      simp

theorem drainAux_append_done_false (parse : List Char → Option Frame) :
    ∀ (a : List Char) (b pre : List Char) (st : DecState),
      (drainAux parse a pre st).done = false →
      drainAux parse (a ++ b) pre st =
        drainAux parse b (drainAux parse a pre st).rest (drainAux parse a pre st).state := by
  intro a
  induction a with
  | nil => intro b pre st _; rfl
  | cons c cs ih =>
      intro b pre st hdone
      simp only [List.cons_append, drainAux, List.append_eq] at hdone ⊢
      by_cases hc : c = '\n'
      · subst hc
        simp only [reduceIte] at hdone ⊢
        rcases hpl : processLine parse st pre with ⟨st', dn⟩
        try rw [hpl] at hdone
        try rw [hpl]
        cases dn with
        | true => simp at hdone
        | false => exact ih b [] st' hdone
      · simp only [if_neg hc] at hdone ⊢
        exact ih b (pre ++ [c]) st hdone

theorem drainAux_append_done_true (parse : List Char → Option Frame) :
    ∀ (a : List Char) (b pre : List Char) (st : DecState),
      (drainAux parse a pre st).done = true →
      drainAux parse (a ++ b) pre st = drainAux parse a pre st := by
  intro a
  induction a with
  | nil => intro b pre st h; simp [drainAux] at h
  | cons c cs ih =>
      intro b pre st hdone
      simp only [List.cons_append, drainAux, List.append_eq] at hdone ⊢
      by_cases hc : c = '\n'
      · subst hc
        simp only [reduceIte] at hdone ⊢
        rcases hpl : processLine parse st pre with ⟨st', dn⟩
        try rw [hpl] at hdone
        try rw [hpl]
        cases dn with
        | true => rfl
        | false => exact ih b [] st' hdone
      · simp only [if_neg hc] at hdone ⊢
        exact ih b (pre ++ [c]) st hdone

theorem drainAux_rest_no_newline (parse : List Char → Option Frame) :
    ∀ (buf pre : List Char) (st : DecState), '\n' ∉ pre →
      '\n' ∉ (drainAux parse buf pre st).rest := by
  intro buf
  induction buf with
  | nil => intro pre st h; simpa [drainAux] using h
  | cons c cs ih =>
      intro pre st hpre
      simp only [drainAux]
      by_cases hc : c = '\n'
      · subst hc
        simp only [reduceIte]
        rcases hpl : processLine parse st pre with ⟨st', dn⟩
        try rw [hpl] at hdone
        try rw [hpl]
        cases dn with
        | true => simp
        | false => exact ih [] st' (by simp)
      · simp only [if_neg hc]
        exact ih (pre ++ [c]) st (by
          simp only [List.mem_append, List.mem_singleton, not_or]
          exact ⟨hpre, fun h => hc h.symm⟩)

theorem processChunks_join (parse : List Char → Option Frame) :
    ∀ (chunks : List (List Char)) (st : DecState) (buf : List Char),
      chunks ≠ [] → '\n' ∉ buf →
      (drainAux parse (buf ++ chunks.flatten) [] st).done = false →
      processChunks parse (st, buf) chunks =
        ((drainAux parse (buf ++ chunks.flatten) [] st).state,
          (drainAux parse (buf ++ chunks.flatten) [] st).rest) := by
  intro chunks
  induction chunks with
  | nil => intro st buf h; exact absurd rfl h
  | cons c cs ih =>
      intro st buf _ hnl hdone
      cases cs with
      | nil =>
          simp only [List.flatten_cons, List.flatten_nil, List.append_nil] at hdone ⊢
          simp only [processChunks, List.foldl_cons, List.foldl_nil, processChunk, drainLines]
      | cons c2 cs2 =>
          have hflat : buf ++ (c :: c2 :: cs2).flatten =
              (buf ++ c) ++ (c2 :: cs2).flatten := by
            simp [List.flatten_cons, List.append_assoc]
          rw [hflat] at hdone ⊢
          have hd1 : (drainAux parse (buf ++ c) [] st).done = false := by
            by_contra hcon
            have ht : (drainAux parse (buf ++ c) [] st).done = true := by
              revert hcon; cases (drainAux parse (buf ++ c) [] st).done <;> simp
            rw [drainAux_append_done_true parse (buf ++ c) ((c2 :: cs2).flatten) [] st ht]
              at hdone
            rw [ht] at hdone
            exact absurd hdone (by simp)
          have hsplit := drainAux_append_done_false parse (buf ++ c) ((c2 :: cs2).flatten)
            [] st hd1
          have hrestnl : '\n' ∉ (drainAux parse (buf ++ c) [] st).rest :=
            drainAux_rest_no_newline parse (buf ++ c) [] st (by simp)
          have hshift : drainAux parse
              ((drainAux parse (buf ++ c) [] st).rest ++ (c2 :: cs2).flatten) []
              (drainAux parse (buf ++ c) [] st).state =
              drainAux parse ((c2 :: cs2).flatten)
                (drainAux parse (buf ++ c) [] st).rest
                (drainAux parse (buf ++ c) [] st).state := by
            rw [drainAux_acc_shift parse _ hrestnl]
            simp
          have hstep : processChunks parse (st, buf) (c :: c2 :: cs2) =
              processChunks parse
                ((drainAux parse (buf ++ c) [] st).state,
                  (drainAux parse (buf ++ c) [] st).rest) (c2 :: cs2) := by
            simp only [processChunks, List.foldl_cons, processChunk, drainLines]
          rw [hstep, hsplit, ← hshift]
          exact ih (drainAux parse (buf ++ c) [] st).state
            (drainAux parse (buf ++ c) [] st).rest (by simp) hrestnl
            (by rw [hshift, ← hsplit]; exact hdone)

theorem isPrefixOf_append_self (p l : List Char) : p.isPrefixOf (p ++ l) = true := by
  induction p with
  | nil => simp [List.isPrefixOf]
  | cons c cs ih => simp [List.isPrefixOf, ih]

theorem drain_encodeLines (parse : List Char → Option Frame) :
    ∀ (ls : List (List Char)) (st : DecState), (∀ l ∈ ls, cleanLine l) →
      drainAux parse (encodeLines ls) [] st =
        { rest := [], state := ls.foldl (frameStep parse) st, done := false } := by
  intro ls
  induction ls with
  | nil => intro st _; rfl
  | cons l rest ih =>
      intro st hclean
      obtain ⟨hnl, htrim, hnd⟩ := hclean l (List.mem_cons_self l rest)
      have henc : encodeLines (l :: rest) =
          (dataPrefix ++ l) ++ ('\n' :: encodeLines rest) := by
        simp [encodeLines, List.flatten_cons, List.append_assoc]
      rw [henc]
      have hnl2 : '\n' ∉ dataPrefix ++ l := by
        intro hmem
        rcases List.mem_append.mp hmem with h | h
        · exact absurd h (by decide)
        · exact hnl h
      rw [drainAux_acc_shift parse (dataPrefix ++ l) hnl2 ('\n' :: encodeLines rest) [] st]
      simp only [List.nil_append]
      have hpl : processLine parse st (dataPrefix ++ l) = (frameStep parse st l, false) := by
        unfold processLine
        rw [htrim]
        have hne : (dataPrefix ++ l).isEmpty = false := by
          simp [dataPrefix]
        simp only [hne, Bool.false_eq_true, if_false]
        have hdp : dropPrefixChars dataPrefix (dataPrefix ++ l) = some l := by
          unfold dropPrefixChars
          rw [isPrefixOf_append_self]
          simp [List.drop_left]
        rw [hdp]
        simp only [if_neg hnd]
        unfold frameStep
        cases parse l <;> rfl
      show drainAux parse ('\n' :: encodeLines rest) (dataPrefix ++ l) st = _
      rw [drainAux]
      rw [if_pos rfl]
      rw [hpl]
      exact ih (frameStep parse st l) (fun x hx => hclean x (List.mem_cons_of_mem l hx))

theorem applyToolCallDelta_length (buf : List ToolCall) (d : ToolCallDelta) :
    (applyToolCallDelta buf d).length = max buf.length (d.index + 1) := by
  unfold applyToolCallDelta
  by_cases h : buf.length ≤ d.index
  · simp only [if_pos h, List.length_set, List.length_append, List.length_replicate]
    omega
  · simp only [if_neg h, List.length_set]
    omega

theorem getD_set_self (l : List ToolCall) (i : Nat) (tc : ToolCall) (hi : i < l.length) :
    (l.set i tc).getD i emptyToolCall = tc := by
  rw [List.getD_eq_getElem?_getD, List.getElem?_set_eq_of_lt tc hi]
  rfl

theorem applyToolCallDelta_getD_function (buf : List ToolCall) (d : ToolCallDelta) :
    ((applyToolCallDelta buf d).getD d.index emptyToolCall).function.name =
      (if buf.length ≤ d.index then emptyToolCall
       else buf.getD d.index emptyToolCall).function.name ++ d.name.getD "" ∧
    ((applyToolCallDelta buf d).getD d.index emptyToolCall).function.arguments =
      (if buf.length ≤ d.index then emptyToolCall
       else buf.getD d.index emptyToolCall).function.arguments ++ d.arguments.getD "" := by
  obtain ⟨i, oid, onm, oargs⟩ := d
  by_cases h : buf.length ≤ i
  · have hbase : (buf ++ List.replicate (i + 1 - buf.length) emptyToolCall).getD
        i emptyToolCall = emptyToolCall := by
      rw [List.getD_eq_getElem?_getD, List.getElem?_append_right h, List.getElem?_replicate]
      have hlt : i - buf.length < i + 1 - buf.length := by omega
      simp [hlt]
    have hlen : i < (buf ++ List.replicate (i + 1 - buf.length) emptyToolCall).length := by
      simp only [List.length_append, List.length_replicate]
      omega
    unfold applyToolCallDelta
    simp only [if_pos h]
    rw [getD_set_self _ _ _ hlen, hbase]
    cases oid <;> cases onm <;> cases oargs <;>
      simp [emptyToolCall, string_append_empty, string_empty_append]
  · have hlen : i < buf.length := Nat.lt_of_not_le h
    unfold applyToolCallDelta
    simp only [if_neg h]
    rw [getD_set_self _ _ _ hlen]
    cases oid <;> cases onm <;> cases oargs <;>
      simp [string_append_empty, string_empty_append]

theorem applyDeltas_preserve (i : Nat) :
    ∀ (ds : List ToolCallDelta) (buf : List ToolCall),
      (∀ d ∈ ds, d.index = i) → i < buf.length →
      (ds.foldl applyToolCallDelta buf).length = buf.length ∧
      ((ds.foldl applyToolCallDelta buf).getD i emptyToolCall).function.name =
        (buf.getD i emptyToolCall).function.name ++ concatNames ds ∧
      ((ds.foldl applyToolCallDelta buf).getD i emptyToolCall).function.arguments =
        (buf.getD i emptyToolCall).function.arguments ++ concatArguments ds := by
  intro ds
  induction ds with
  | nil =>
      intro buf _ _
      refine ⟨rfl, ?_, ?_⟩ <;> simp [concatNames, concatArguments, string_append_empty]
  | cons d ds ih =>
      intro buf hidx hlt
      have hd : d.index = i := hidx d (List.mem_cons_self d ds)
      have hng : ¬ buf.length ≤ d.index := by omega
      have hlen1 : (applyToolCallDelta buf d).length = buf.length := by
        rw [applyToolCallDelta_length]
        omega
      have hfun := applyToolCallDelta_getD_function buf d
      rw [if_neg hng, hd] at hfun
      have hih := ih (applyToolCallDelta buf d)
        (fun x hx => hidx x (List.mem_cons_of_mem d hx)) (by omega)
      refine ⟨by rw [List.foldl_cons, hih.1, hlen1], ?_, ?_⟩
      · rw [List.foldl_cons, hih.2.1, hfun.1, concatNames, string_append_assoc]
      · rw [List.foldl_cons, hih.2.2, hfun.2, concatArguments, string_append_assoc]

theorem applyDeltas_from_empty (i : Nat) (d : ToolCallDelta) (ds : List ToolCallDelta)
    (hd : d.index = i) (hds : ∀ x ∈ ds, x.index = i) :
    ((d :: ds).foldl applyToolCallDelta []).length = i + 1 ∧
    (((d :: ds).foldl applyToolCallDelta []).getD i emptyToolCall).function.name =
      concatNames (d :: ds) ∧
    (((d :: ds).foldl applyToolCallDelta []).getD i emptyToolCall).function.arguments =
      concatArguments (d :: ds) := by
  have hlen0 : (applyToolCallDelta [] d).length = i + 1 := by
    rw [applyToolCallDelta_length, hd]
    simp
  have hg : ([] : List ToolCall).length ≤ d.index := by simp
  have hfun := applyToolCallDelta_getD_function [] d
  rw [if_pos hg, hd] at hfun
  have hpres := applyDeltas_preserve i ds (applyToolCallDelta [] d) hds (by omega)
  refine ⟨by rw [List.foldl_cons, hpres.1, hlen0], ?_, ?_⟩
  · rw [List.foldl_cons, hpres.2.1, hfun.1, concatNames]
    rw [show emptyToolCall.function.name = "" from rfl, string_empty_append]
  · rw [List.foldl_cons, hpres.2.2, hfun.2, concatArguments]
    rw [show emptyToolCall.function.arguments = "" from rfl, string_empty_append]

theorem applyFrame_fragment (st : DecState) (d : ToolCallDelta) :
    applyFrame st (fragmentFrame d) =
      { st with tool_calls_buffer := applyToolCallDelta st.tool_calls_buffer d } := rfl

theorem foldl_frameStep_fragments (parse : List Char → Option Frame) :
    ∀ (ls : List (List Char)) (ds : List ToolCallDelta) (st : DecState),
      ls.length = ds.length →
      (∀ p ∈ ls.zip ds, parse p.1 = some (fragmentFrame p.2)) →
      (ls.foldl (frameStep parse) st).tool_calls_buffer =
        ds.foldl applyToolCallDelta st.tool_calls_buffer := by
  intro ls
  induction ls with
  | nil =>
      intro ds st hlen _
      cases ds with
      | nil => rfl
      | cons _ _ => simp at hlen
  | cons l ls ih =>
      intro ds st hlen hpair
      cases ds with
      | nil => simp at hlen
      | cons d ds =>
          have hp : parse l = some (fragmentFrame d) :=
            hpair (l, d) (by rw [List.zip_cons_cons]; exact List.mem_cons_self _ _)
          have hstep : frameStep parse st l =
              { st with tool_calls_buffer := applyToolCallDelta st.tool_calls_buffer d } := by
            unfold frameStep
            rw [hp]
            exact applyFrame_fragment st d
          simp only [List.foldl_cons]
          rw [hstep]
          exact ih ds _ (by simpa using hlen)
            (fun p hmem => hpair p (by rw [List.zip_cons_cons]; exact List.mem_cons_of_mem _ hmem))

/-- **C3 (amended).** Tool-call fragment reassembly is chunking-invariant
for every chunk split that respects UTF-8 character boundaries (modelled as
an arbitrary split of the decoded character stream): for every fragment
sequence sharing one index, delivered as SSE `data:` lines split into
arbitrary such chunks, the decoder grows its buffer to cover the index and
the materialized ToolCall's `function.name`/`function.arguments` are the
in-order concatenations — identical to what one undivided frame carrying
the concatenated substrings produces.  The boundary restriction is
necessary: the source decodes each raw byte chunk separately with
`String::from_utf8_lossy`, so a split inside a multi-byte character
corrupts it to U+FFFD — see `decoder_byte_split_counterexample`. -/
theorem decoder_fragment_reassembly
    (parse : List Char → Option Frame) (i : Nat)
    (d0 : ToolCallDelta) (ds : List ToolCallDelta) (ls : List (List Char))
    (chunks : List (List Char)) (l0 : List Char) (dsingle : ToolCallDelta)
    (hlen : ls.length = (d0 :: ds).length)
    (hpair : ∀ p ∈ ls.zip (d0 :: ds), parse p.1 = some (fragmentFrame p.2))
    (hidx : ∀ d ∈ d0 :: ds, d.index = i)
    (hclean : ∀ l ∈ ls, cleanLine l)
    (hchunks : chunks.flatten = encodeLines ls)
    (hsingle : dsingle.index = i ∧ dsingle.name = some (concatNames (d0 :: ds)) ∧
      dsingle.arguments = some (concatArguments (d0 :: ds)))
    (hparse0 : parse l0 = some (fragmentFrame dsingle))
    (hclean0 : cleanLine l0) :
    i < (processChunks parse (initDecState, []) chunks).1.tool_calls_buffer.length ∧
    ((processChunks parse (initDecState, []) chunks).1.tool_calls_buffer.getD i
        emptyToolCall).function.name = concatNames (d0 :: ds) ∧
    ((processChunks parse (initDecState, []) chunks).1.tool_calls_buffer.getD i
        emptyToolCall).function.arguments = concatArguments (d0 :: ds) ∧
    ((processChunks parse (initDecState, []) chunks).1.tool_calls_buffer.getD i
        emptyToolCall).function =
      ((processChunks parse (initDecState, []) [encodeLines [l0]]).1.tool_calls_buffer.getD i
        emptyToolCall).function := by
  have hene : encodeLines ls ≠ [] := by
    cases ls with
    | nil => simp at hlen
    | cons a as =>
        intro hcon
        rw [encodeLines] at hcon
        simp at hcon
  have hchne : chunks ≠ [] := by
    intro hc
    subst hc
    simp only [List.flatten_nil] at hchunks
    exact hene hchunks.symm
  have hdrain := drain_encodeLines parse ls initDecState hclean
  have hdone : (drainAux parse ([] ++ chunks.flatten) [] initDecState).done = false := by
    rw [List.nil_append, hchunks, hdrain]
  have hjoin := processChunks_join parse chunks initDecState [] hchne (by simp) hdone
  have hmulti : (processChunks parse (initDecState, []) chunks).1 =
      ls.foldl (frameStep parse) initDecState := by
    rw [hjoin]
    show (drainAux parse ([] ++ chunks.flatten) [] initDecState).state = _
    rw [List.nil_append, hchunks, hdrain]
  have hbufmulti : (processChunks parse (initDecState, []) chunks).1.tool_calls_buffer =
      (d0 :: ds).foldl applyToolCallDelta [] := by
    rw [hmulti]
    exact foldl_frameStep_fragments parse ls (d0 :: ds) initDecState hlen hpair
  obtain ⟨hl, hn, ha⟩ := applyDeltas_from_empty i d0 ds
    (hidx d0 (List.mem_cons_self d0 ds)) (fun x hx => hidx x (List.mem_cons_of_mem d0 hx))
  have hdrain1 := drain_encodeLines parse [l0] initDecState (by
    intro x hx
    simp only [List.mem_singleton] at hx
    subst hx
    exact hclean0)
  have hsingleRes : (processChunks parse (initDecState, []) [encodeLines [l0]]).1 =
      frameStep parse initDecState l0 := by
    show (drainAux parse ([] ++ encodeLines [l0]) [] initDecState).state = _
    rw [List.nil_append, hdrain1]
    rfl
  have hbufsingle :
      (processChunks parse (initDecState, []) [encodeLines [l0]]).1.tool_calls_buffer =
        applyToolCallDelta [] dsingle := by
    rw [hsingleRes]
    show (frameStep parse initDecState l0).tool_calls_buffer = _
    unfold frameStep
    rw [hparse0]
    show (applyFrame initDecState (fragmentFrame dsingle)).tool_calls_buffer = _
    rw [applyFrame_fragment]
    rfl
  obtain ⟨hsl, hsn, hsa⟩ := applyDeltas_from_empty i dsingle [] hsingle.1
    (by intro x hx; simp at hx)
  have h5n : concatNames [dsingle] = concatNames (d0 :: ds) := by
    simp [concatNames, hsingle.2.1, string_append_empty]
  have h5a : concatArguments [dsingle] = concatArguments (d0 :: ds) := by
    simp [concatArguments, hsingle.2.2, string_append_empty]
  have hXn : ((processChunks parse (initDecState, []) chunks).1.tool_calls_buffer.getD i
      emptyToolCall).function.name = concatNames (d0 :: ds) := by
    rw [hbufmulti]
    exact hn
  have hXa : ((processChunks parse (initDecState, []) chunks).1.tool_calls_buffer.getD i
      emptyToolCall).function.arguments = concatArguments (d0 :: ds) := by
    rw [hbufmulti]
    exact ha
  have hYn : ((processChunks parse (initDecState, []) [encodeLines [l0]]).1.tool_calls_buffer.getD
      i emptyToolCall).function.name = concatNames (d0 :: ds) := by
    rw [hbufsingle]
    exact hsn.trans h5n
  have hYa : ((processChunks parse (initDecState, []) [encodeLines [l0]]).1.tool_calls_buffer.getD
      i emptyToolCall).function.arguments = concatArguments (d0 :: ds) := by
    rw [hbufsingle]
    exact hsa.trans h5a
  refine ⟨?_, hXn, hXa, ?_⟩
  · rw [hbufmulti, hl]
    omega
  · have h4l : ((processChunks parse (initDecState, []) chunks).1.tool_calls_buffer.getD i
        emptyToolCall).function =
        FunctionCall.mk (concatNames (d0 :: ds)) (concatArguments (d0 :: ds)) := by
      rw [← hXn, ← hXa]
    have h4r : ((processChunks parse (initDecState, [])
        [encodeLines [l0]]).1.tool_calls_buffer.getD i emptyToolCall).function =
        FunctionCall.mk (concatNames (d0 :: ds)) (concatArguments (d0 :: ds)) := by
      rw [← hYn, ← hYa]
    exact h4l.trans h4r.symm

/-- **C3 (counterexample to the original claim).** The unrestricted
quantifier over "every way of splitting the provider byte stream into
chunks" fails in the program: the stream loop decodes each raw byte chunk
on its own with `String::from_utf8_lossy`, so the split `chunksBytesX` —
which covers the very same bytes as the undivided stream but severs the
two-byte `é` of the arguments substring — turns it into two U+FFFD
replacement characters; the corrupted line still parses, and the
materialized ToolCall's arguments differ from what the single undivided
frame produces. -/
theorem decoder_byte_split_counterexample :
    chunksBytesX.flatten = utf8Bytes (encodeLines [bodyX]) ∧
    dX.index = 0 ∧ cleanLine bodyX ∧ parseX bodyX = some (fragmentFrame dX) ∧
    ((processChunksBytes parseX (initDecState, []) chunksBytesX).1.tool_calls_buffer.getD 0
        emptyToolCall).function.arguments ≠
      ((processChunks parseX (initDecState, []) [encodeLines [bodyX]]).1.tool_calls_buffer.getD 0
        emptyToolCall).function.arguments := by decide

theorem decoder_fragment_reassembly_witness :
    (lsC3.length = ([dA, dB] : List ToolCallDelta).length ∧
     (∀ p ∈ lsC3.zip [dA, dB], parseC3 p.1 = some (fragmentFrame p.2)) ∧
     (∀ d ∈ [dA, dB], d.index = 0) ∧
     (∀ l ∈ lsC3, cleanLine l) ∧
     chunksC3.flatten = encodeLines lsC3 ∧
     (dC.index = 0 ∧ dC.name = some (concatNames [dA, dB]) ∧
       dC.arguments = some (concatArguments [dA, dB])) ∧
     parseC3 "C".data = some (fragmentFrame dC) ∧
     cleanLine "C".data) ∧
    (0 < (processChunks parseC3 (initDecState, []) chunksC3).1.tool_calls_buffer.length ∧
     ((processChunks parseC3 (initDecState, []) chunksC3).1.tool_calls_buffer.getD 0
        emptyToolCall).function.name = concatNames [dA, dB] ∧
     ((processChunks parseC3 (initDecState, []) chunksC3).1.tool_calls_buffer.getD 0
        emptyToolCall).function.arguments = concatArguments [dA, dB] ∧
     ((processChunks parseC3 (initDecState, []) chunksC3).1.tool_calls_buffer.getD 0
        emptyToolCall).function =
      ((processChunks parseC3 (initDecState, []) [encodeLines ["C".data]]).1.tool_calls_buffer.getD
        0 emptyToolCall).function) :=
  ⟨by decide,
   decoder_fragment_reassembly parseC3 0 dA [dB] lsC3 chunksC3 "C".data dC
     (by decide) (by decide) (by decide) (by decide) (by decide) (by decide)
     (by decide) (by decide)⟩

end GrokCLI
